import Mathlib

/-!
# A verification model of `nestjs-zod-fixtures`

This file embeds the `FixtureProvider` class of `src/fixture.provider.ts`
(together with the fixture data model of `src/types.ts` and `src/fixture.ts`)
into Lean, and proves the stated properties of the build / save machinery.

Modelling conventions:

* Fixture templates are identified by a natural number `fid`; the surrounding
  environment `Env` maps each `fid` to its definition (entity class, optional
  initializer, declared modifier names), mirroring the `Fixture` interface.
* Entity instances are JavaScript objects; object identity is modelled by a
  heap: a table from instance ids (`iid`) to property lists.  A property holds
  a value and its `enumerable` attribute, so that plain assignment and
  `Object.defineProperty` can be distinguished, as in the source.
* The provider's two `Map`s (`instances`, `dependencies`) become association
  lists keyed by `fid` (TypeScript keys them by object identity of the
  fixture template, which the numeric id models).
* `async`/`await` sequential calls become explicit state threading; the
  persistence calls (`repository.save`, `entityManager.save`) are recorded in
  an event trace.
* The recursive walk has no termination argument in the source (no cycle
  detection), so the recursive functions take explicit fuel and return
  `Option`; `none` means the recursion exceeded the fuel.
* External libraries (`typeorm`, `typeorm-zod`, `lodash`, `ytil`) are modelled
  as environment parameters (`defaults`, `columns`, `savedFields`, `funcs`)
  or by their documented behaviour (`deepMapValues`, `MapUtil.ensure`).
-/

namespace Fixtures

/-- The `saveOrder` union type `'before' | 'after'`. -/
inductive SaveOrder
  | before
  | after
deriving DecidableEq, Repr

/-- A key of the collected schema's `columns` record: `objectKeys` can yield
string keys or symbol keys, and `fixturize` skips the non-string ones. -/
inductive ColKey
  | str (s : String)
  | sym (n : Nat)
deriving DecidableEq, Repr

/-- A JavaScript value as it occurs in initializers, instance properties and
dependency registrations.  `fx` is a fixture template value (an object with
the `FIXTURE` symbol), `fn` a zero-argument function value identified by an
id into the environment, `ref` a reference to an entity instance in the heap,
and `thunkRef` a closure `() => instance` over the instance `iid`. -/
inductive RVal
  | fx (fid : Nat)
  | fn (fnid : Nat)
  | arr (vs : List RVal)
  | prim (n : Nat)
  | nullV
  | undefV
  | ref (iid : Nat)
  | thunkRef (iid : Nat)

/-- `isFixture` from `src/util.ts`: true exactly for fixture template
values. -/
def RVal.isFixture : RVal → Bool
  | .fx _ => true
  | _ => false

/-- ytil's `isFunction`: true for function values. -/
def RVal.isFunction : RVal → Bool
  | .fn _ => true
  | .thunkRef _ => true
  | _ => false

/-- `true` iff the value is `null` or `undefined` (the values the `??`
operator tests for). -/
def RVal.isNullish : RVal → Bool
  | .nullV => true
  | .undefV => true
  | _ => false

/-- The instance id a `ref` value points at (`0` as a junk default for
non-references; reachable states only apply this to references). -/
def RVal.refId : RVal → Nat
  | .ref iid => iid
  | _ => 0

/-- The value of a property of an entity instance.  Data properties hold an
`RVal`; the three method kinds installed by `fixturize` are tagged with what
their closures capture: the column key of a `with_` setter, the name of a
wrapped modifier, and the fixture id the installed `save` is bound to. -/
inductive PropVal
  | data (v : RVal)
  | setterFn (key : String)
  | modifierFn (name : String)
  | saveFn (fid : Nat)

/-- A property of a JavaScript object: its value and `enumerable`
attribute. -/
structure InstProp where
  value : PropVal
  enumerable : Bool

/-- An entity instance: its own properties in insertion order. -/
abbrev Instance := List (String × InstProp)

/-- Own-property lookup. -/
def lookupProp : Instance → String → Option InstProp
  | [], _ => none
  | (k, p) :: rest, key => if k = key then some p else lookupProp rest key

/-- Plain JavaScript assignment `obj[key] = v`: overwrites the value of an
existing property keeping its `enumerable` attribute, or creates a new
enumerable property. -/
def assignProp (inst : Instance) (key : String) (v : PropVal) : Instance :=
  match inst with
  | [] => [(key, ⟨v, true⟩)]
  | (k, p) :: rest =>
    if k = key then (k, ⟨v, p.enumerable⟩) :: rest
    else (k, p) :: assignProp rest key v

/-- `Object.defineProperty(obj, key, { value, enumerable, writable: true })`:
overwrites or creates the property with the given attributes. -/
def defineProp (inst : Instance) (key : String) (v : PropVal) (enumerable : Bool) :
    Instance :=
  match inst with
  | [] => [(key, ⟨v, enumerable⟩)]
  | (k, p) :: rest =>
    if k = key then (k, ⟨v, enumerable⟩) :: rest
    else (k, p) :: defineProp rest key v enumerable

/-- The stored `instance` accessor of a `Dependency`.  `addDependency` stores
`isFunction(instance) ? instance : () => instance`, so the accessor is either
a user-supplied function value kept as-is (`direct`), or the wrapping closure
`() => instance` (`wrapped`). -/
inductive DepAccessor
  | wrapped (v : RVal)
  | direct (v : RVal)

/-- A registered dependency, as pushed by `addDependency`. -/
structure Dependency where
  fixture : Option Nat
  inst : DepAccessor
  saveOrder : SaveOrder

/-- `it.saveOrder === 'before'`. -/
def Dependency.isBefore (d : Dependency) : Bool :=
  match d.saveOrder with
  | .before => true
  | .after => false

/-- `it.saveOrder === 'after'`. -/
def Dependency.isAfter (d : Dependency) : Bool :=
  match d.saveOrder with
  | .before => false
  | .after => true

/-- An initializer: either a plain record of entries, or (as produced by
`related`) a function of the optional owner instance returning the record. -/
inductive FixtureInit
  | record (entries : List (String × RVal))
  | fn (f : Option Nat → List (String × RVal))

/-- A fixture template: entity class (identified by a numeric id), optional
initializer, and the names of the declared modifiers (a `Record`, so the
names are pairwise distinct in well-typed inputs). -/
structure FixtureDef where
  Entity : Nat
  init : Option FixtureInit
  modifiers : List String

/-- The ambient environment: the fixture templates and the modelled external
libraries. -/
structure Env where
  /-- the fixture template each fixture id denotes -/
  fixtures : Nat → FixtureDef
  /-- keys of `tz.collectSchema(Entity).columns` per entity -/
  columns : Nat → List ColKey
  /-- the property values `tz.applyDefaults` writes per entity -/
  defaults : Nat → List (String × RVal)
  /-- the result of calling a zero-argument function value -/
  funcs : Nat → RVal
  /-- the fields of the entity returned by `repository.save`, merged into the
  instance by `Object.assign(instance, {...saved})`, per entity -/
  savedFields : Nat → List (String × RVal)

/-- Evaluating the stored accessor, `dependency.instance()`. -/
def DepAccessor.call (env : Env) : DepAccessor → RVal
  | .wrapped v => v
  | .direct (.fn fnid) => env.funcs fnid
  | .direct (.thunkRef iid) => .ref iid
  | .direct v => v

/-- Association-list lookup (models `Map.get`). -/
def mapGet {α : Type} : List (Nat × α) → Nat → Option α
  | [], _ => none
  | (k, v) :: rest, key => if k = key then some v else mapGet rest key

/-- Association-list update (models `Map.set`). -/
def mapSet {α : Type} : List (Nat × α) → Nat → α → List (Nat × α)
  | [], key, v => [(key, v)]
  | (k, w) :: rest, key, v =>
    if k = key then (k, v) :: rest else (k, w) :: mapSet rest key v

/-- The provider's state: the fresh-id counter and heap model object
identity; `instances` and `dependencies` are the two `Map` fields of
`FixtureProvider`. -/
structure ProviderState where
  nextId : Nat
  heap : List (Nat × Instance)
  instances : List (Nat × Nat)
  dependencies : List (Nat × List Dependency)

/-- The empty provider state (a freshly constructed provider). -/
def ProviderState.empty : ProviderState :=
  { nextId := 0, heap := [], instances := [], dependencies := [] }

/-- Mutating an instance object in place through its heap entry. -/
def heapModify (st : ProviderState) (iid : Nat) (f : Instance → Instance) :
    ProviderState :=
  { st with heap :=
      match mapGet st.heap iid with
      | some inst => mapSet st.heap iid (f inst)
      | none => st.heap }

/-- The dependency list registered for a fixture,
`this.dependencies.get(fixture) ?? []`. -/
def depsOf (st : ProviderState) (fid : Nat) : List Dependency :=
  (mapGet st.dependencies fid).getD []

/-- `reset()`: clears both tables. -/
def reset (st : ProviderState) : ProviderState :=
  { st with instances := [], dependencies := [] }

/-- `addDependency`: pulls an optional leading fixture argument
(`isFixture(args[0])`), then the instance (object or thunk), then the save
order, and pushes onto `MapUtil.ensure(this.dependencies, owner, () => [])` a
`Dependency` whose accessor is `isFunction(instance) ? instance :
() => instance`. -/
def addDependency (st : ProviderState) (owner : Nat) (fixture : Option Nat)
    (instArg : RVal) (saveOrder : SaveOrder) : ProviderState :=
  let stored : DepAccessor :=
    if instArg.isFunction then .direct instArg else .wrapped instArg
  let deps := depsOf st owner
  let entry : Dependency :=
    { fixture := fixture, inst := stored, saveOrder := saveOrder }
  { st with dependencies := mapSet st.dependencies owner (deps ++ [entry]) }

/-- `repository.create()`: a fresh empty entity instance. -/
def repositoryCreate : Instance := []

/-- `tz.applyDefaults(instance)`: writes the schema defaults of the entity
onto the instance. -/
def applyDefaults (env : Env) (entity : Nat) (inst : Instance) : Instance :=
  (env.defaults entity).foldl (fun i kv => assignProp i kv.1 (PropVal.data kv.2)) inst

/-- `buildOrReuseInstance`: returns the memoized instance when present;
otherwise creates a fresh entity via the repository, applies the schema
defaults, memoizes and returns it. -/
def buildOrReuseInstance (env : Env) (st : ProviderState) (fid : Nat) :
    Nat × ProviderState :=
  match mapGet st.instances fid with
  | some iid => (iid, st)
  | none =>
    let iid := st.nextId
    let inst := applyDefaults env (env.fixtures fid).Entity repositoryCreate
    (iid,
      { st with
        nextId := iid + 1,
        heap := mapSet st.heap iid inst,
        instances := mapSet st.instances fid iid })

/-- The `with_<key>` setters: one non-enumerable writable method per
string-typed key of the collected schema's columns (symbol keys are
skipped). -/
def installSetters (cols : List ColKey) (inst : Instance) : Instance :=
  cols.foldl
    (fun i k =>
      match k with
      | .str s => defineProp i ("with_" ++ s) (.setterFn s) false
      | .sym _ => i)
    inst

/-- `Object.assign(instance, mapValues(fixture.modifiers, wrap))`: one
wrapped modifier method per declared modifier, installed by plain
assignment. -/
def installModifiers (mods : List String) (inst : Instance) : Instance :=
  mods.foldl (fun i m => assignProp i m (.modifierFn m)) inst

/-- `fixturize`: installs the `with_` setters, the wrapped modifiers and the
non-enumerable `save` method on the instance. -/
def fixturize (env : Env) (st : ProviderState) (fid : Nat) (iid : Nat) :
    ProviderState :=
  heapModify st iid fun inst =>
    let inst1 := installSetters (env.columns (env.fixtures fid).Entity) inst
    let inst2 := installModifiers (env.fixtures fid).modifiers inst1
    defineProp inst2 "save" (.saveFn fid) false

mutual

/-- `buildFixtureInstance`: build-or-reuse, initialize, fixturize.  The
source recursion carries no termination argument (no cycle detection), so
the model threads explicit fuel, decremented at every recursive call;
`none` means the fuel ran out. -/
def buildFixtureInstance (env : Env) (fuel : Nat) (st : ProviderState)
    (fid : Nat) (ownerInstance : Option Nat) : Option (Nat × ProviderState) :=
  match fuel with
  | 0 => none
  | fuel + 1 =>
    match buildOrReuseInstance env st fid with
    | (iid, st1) =>
      match initFixture env fuel st1 fid iid ownerInstance with
      | none => none
      | some st2 => some (iid, fixturize env st2 fid iid)
termination_by structural fuel

/-- `initFixture`: nothing when the fixture has no initializer; otherwise
resolves the entries of `isFunction(init) ? init(ownerInstance) : init` in
order, assigning each resolved value to the instance. -/
def initFixture (env : Env) (fuel : Nat) (st : ProviderState)
    (fid : Nat) (iid : Nat) (ownerInstance : Option Nat) : Option ProviderState :=
  match fuel with
  | 0 => none
  | fuel + 1 =>
    match (env.fixtures fid).init with
    | none => some st
    | some i =>
      match i with
      | .record es => initEntries env fuel st fid iid es
      | .fn f => initEntries env fuel st fid iid (f ownerInstance)
termination_by structural fuel

/-- The `for (const [key, value] of objectEntries(init))` loop of
`initFixture`: `instance[key] = this.resolveProp(fixture, instance, value)`
for each entry in order. -/
def initEntries (env : Env) (fuel : Nat) (st : ProviderState)
    (fid : Nat) (iid : Nat) (entries : List (String × RVal)) : Option ProviderState :=
  match fuel with
  | 0 => none
  | fuel + 1 =>
    match entries with
    | [] => some st
    | (key, value) :: rest =>
      match resolveProp env fuel st fid iid value with
      | none => none
      | some (rv, st1) =>
        initEntries env fuel
          (heapModify st1 iid fun inst => assignProp inst key (.data rv))
          fid iid rest
termination_by structural fuel

/-- `resolveProp`: a fixture value becomes a `'before'` dependency; an array
all of whose elements are fixtures becomes the array of `'after'`
dependencies; a function value is called with no arguments; anything else is
returned unchanged. -/
def resolveProp (env : Env) (fuel : Nat) (st : ProviderState)
    (fid : Nat) (iid : Nat) (value : RVal) : Option (RVal × ProviderState) :=
  match fuel with
  | 0 => none
  | fuel + 1 =>
    match value with
    | .fx g => resolveDependency env fuel st fid (some iid) (.fx g) .before
    | .arr vs =>
      if vs.all RVal.isFixture then
        match resolveDepList env fuel st fid (some iid) vs with
        | none => none
        | some (rvs, st1) => some (RVal.arr rvs, st1)
      else some (RVal.arr vs, st)
    | .fn fnid => some (env.funcs fnid, st)
    | .thunkRef r => some (.ref r, st)
    | v => some (v, st)
termination_by structural fuel

/-- `value.map(it => this.resolveDependency(fixture, instance, it, 'after'))`. -/
def resolveDepList (env : Env) (fuel : Nat) (st : ProviderState)
    (fid : Nat) (ownerInstance : Option Nat) (values : List RVal) :
    Option (List RVal × ProviderState) :=
  match fuel with
  | 0 => none
  | fuel + 1 =>
    match values with
    | [] => some ([], st)
    | v :: rest =>
      match resolveDependency env fuel st fid ownerInstance v .after with
      | none => none
      | some (rv, st1) =>
        match resolveDepList env fuel st1 fid ownerInstance rest with
        | none => none
        | some (rvs, st2) => some (rv :: rvs, st2)
termination_by structural fuel

/-- `resolveDependency`: a fixture value is built (recursively, passing the
owner instance) and registered with its fixture template; any other value is
registered as-is.  Returns the instance (or the value itself when it is not a
fixture). -/
def resolveDependency (env : Env) (fuel : Nat) (st : ProviderState)
    (ownerFid : Nat) (ownerInstance : Option Nat) (value : RVal)
    (saveOrder : SaveOrder) : Option (RVal × ProviderState) :=
  match fuel with
  | 0 => none
  | fuel + 1 =>
    match value with
    | .fx g =>
      match buildFixtureInstance env fuel st g ownerInstance with
      | none => none
      | some (iid, st1) =>
        some (.ref iid, addDependency st1 ownerFid (some g) (.ref iid) saveOrder)
    | v => some (v, addDependency st ownerFid none v saveOrder)
termination_by structural fuel

end

/-- A persistence call: `repository.save(instance)` for the fixture's own
instance, or `entityManager.save(dependencyInstance)` for a non-fixture
dependency. -/
inductive SaveEvent
  | repoSave (entity : Nat) (iid : Nat)
  | emSave (v : RVal)

mutual

/-- `saveFixtureInstance`: saves the `'before'` dependencies in order, then
the instance itself via its repository (merging the saved entity back with
`Object.assign`), then the `'after'` dependencies in order. -/
def saveFixtureInstance (env : Env) (fuel : Nat) (st : ProviderState)
    (fid : Nat) (iid : Nat) : Option (List SaveEvent × ProviderState) :=
  match fuel with
  | 0 => none
  | fuel + 1 =>
    let deps := depsOf st fid
    match saveDeps env fuel st (deps.filter Dependency.isBefore) with
    | none => none
    | some (evB, st1) =>
      let st2 := heapModify st1 iid fun inst =>
        (env.savedFields (env.fixtures fid).Entity).foldl
          (fun i kv => assignProp i kv.1 (PropVal.data kv.2)) inst
      match saveDeps env fuel st2 (deps.filter Dependency.isAfter) with
      | none => none
      | some (evA, st3) =>
        some (evB ++ [SaveEvent.repoSave (env.fixtures fid).Entity iid] ++ evA, st3)
termination_by structural fuel

/-- One `for (const dependency of ...)` loop body, iterated: evaluate the
accessor, then recurse into `saveFixtureInstance` when the dependency carries
a fixture, or save directly via the entity manager when it does not; each
call awaited before the next begins. -/
def saveDeps (env : Env) (fuel : Nat) (st : ProviderState)
    (deps : List Dependency) : Option (List SaveEvent × ProviderState) :=
  match fuel with
  | 0 => none
  | fuel + 1 =>
    match deps with
    | [] => some ([], st)
    | d :: rest =>
      let dependencyInstance := d.inst.call env
      match d.fixture with
      | some g =>
        match saveFixtureInstance env fuel st g dependencyInstance.refId with
        | none => none
        | some (ev1, st1) =>
          match saveDeps env fuel st1 rest with
          | none => none
          | some (ev2, st2) => some (ev1 ++ ev2, st2)
      | none =>
        match saveDeps env fuel st rest with
        | none => none
        | some (ev2, st2) => some (.emSave dependencyInstance :: ev2, st2)
termination_by structural fuel

end

/-- The `save` method `fixturize` installs:
`() => this.saveFixtureInstance(fixture, instance)`.  The closure declares no
parameters, so whatever argument a caller passes for the
`includeDependencies?: boolean` parameter of `FixtureCommon.save` is dropped
by JavaScript call semantics. -/
def installedSave (env : Env) (fuel : Nat) (st : ProviderState)
    (fid : Nat) (iid : Nat) (_includeDependencies : Option Bool) :
    Option (List SaveEvent × ProviderState) :=
  saveFixtureInstance env fuel st fid iid

/-- Invoking a `with_<key>` setter installed by `fixturize` on instance
`iid`: `function (value) { this[key] = value; return this }`. -/
def callSetter (st : ProviderState) (iid : Nat) (key : String) (v : RVal) :
    ProviderState × Nat :=
  (heapModify st iid fun inst => assignProp inst key (.data v), iid)

/-- Invoking a wrapped modifier method installed by `fixturize`:
`(...args) => { const result = modifier.call(context, instance, ...args);
return result ?? instance }`.  The underlying modifier is an arbitrary
function of the instance and arguments that may update provider state; a
`void` return is `RVal.undefV`. -/
def wrapModifier
    (modifier : Nat → List RVal → ProviderState → RVal × ProviderState)
    (iid : Nat) (args : List RVal) (st : ProviderState) :
    RVal × ProviderState :=
  let result := modifier iid args st
  (if result.1.isNullish then .ref iid else result.1, result.2)

/-- The modifier context's `addDependencyBefore` callback:
`arg => { this.resolveDependency(fixture, instance, arg, 'before') }`. -/
def addDependencyBefore (env : Env) (fuel : Nat) (st : ProviderState)
    (fid : Nat) (iid : Nat) (arg : RVal) : Option ProviderState :=
  (resolveDependency env fuel st fid (some iid) arg .before).map (fun p => p.2)

/-- The modifier context's `addDependencyAfter` callback:
`arg => { this.resolveDependency(fixture, instance, arg, 'after') }`. -/
def addDependencyAfter (env : Env) (fuel : Nat) (st : ProviderState)
    (fid : Nat) (iid : Nat) (arg : RVal) : Option ProviderState :=
  (resolveDependency env fuel st fid (some iid) arg .after).map (fun p => p.2)

/-- A value of the record handed to `bind`: fixtures, nested plain objects,
arrays and other (primitive or otherwise opaque) values. -/
inductive BindVal
  | fx (fid : Nat)
  | obj (fields : List (String × BindVal))
  | arr (elems : List BindVal)
  | prim (n : Nat)

/-- A value of the record `bind` returns: every fixture replaced by a
zero-argument function (`thunk`), everything else kept in place. -/
inductive BoundVal
  | thunk (fid : Nat)
  | obj (fields : List (String × BoundVal))
  | arr (elems : List BoundVal)
  | prim (n : Nat)

mutual

/-- ytil's `deepMapValues` applied to `bind`'s callback: a fixture value is
replaced by the closure `() => this.buildFixtureInstance(value)` (the
callback returns it), the traversal descends into nested plain objects and
arrays, and every other value is left unchanged (the callback returns
`undefined` for it). -/
def deepMapFixtures : BindVal → BoundVal
  | .fx fid => .thunk fid
  | .obj fields => .obj (deepMapFixturesFields fields)
  | .arr elems => .arr (deepMapFixturesList elems)
  | .prim n => .prim n

/-- `deepMapFixtures` over the fields of a nested object. -/
def deepMapFixturesFields : List (String × BindVal) → List (String × BoundVal)
  | [] => []
  | (k, v) :: rest => (k, deepMapFixtures v) :: deepMapFixturesFields rest

/-- `deepMapFixtures` over the elements of a nested array. -/
def deepMapFixturesList : List BindVal → List BoundVal
  | [] => []
  | v :: rest => deepMapFixtures v :: deepMapFixturesList rest

end

/-- `bind(fixtures)`: returns `deepMapValues(fixtures, ...)`; the provider's
state is untouched (instances are built only when a returned thunk is
invoked). -/
def bind (st : ProviderState) (fixtures : BindVal) : BoundVal × ProviderState :=
  (deepMapFixtures fixtures, st)

/-- Invoking a bound thunk produced by `bind`:
`() => this.buildFixtureInstance(value)` (no owner instance). -/
def invokeBoundFixture (env : Env) (fuel : Nat) (st : ProviderState)
    (fid : Nat) : Option (Nat × ProviderState) :=
  buildFixtureInstance env fuel st fid none

mutual

/-- The fixture ids occurring in a `bind` input, in traversal order. -/
def BindVal.fixtureIds : BindVal → List Nat
  | .fx fid => [fid]
  | .obj fields => BindVal.fieldsFixtureIds fields
  | .arr elems => BindVal.listFixtureIds elems
  | .prim _ => []

/-- `BindVal.fixtureIds` over object fields. -/
def BindVal.fieldsFixtureIds : List (String × BindVal) → List Nat
  | [] => []
  | (_, v) :: rest => v.fixtureIds ++ BindVal.fieldsFixtureIds rest

/-- `BindVal.fixtureIds` over array elements. -/
def BindVal.listFixtureIds : List BindVal → List Nat
  | [] => []
  | v :: rest => v.fixtureIds ++ BindVal.listFixtureIds rest

end

mutual

/-- The thunk targets occurring in a `bind` output, in traversal order. -/
def BoundVal.thunkIds : BoundVal → List Nat
  | .thunk fid => [fid]
  | .obj fields => BoundVal.fieldsThunkIds fields
  | .arr elems => BoundVal.listThunkIds elems
  | .prim _ => []

/-- `BoundVal.thunkIds` over object fields. -/
def BoundVal.fieldsThunkIds : List (String × BoundVal) → List Nat
  | [] => []
  | (_, v) :: rest => v.thunkIds ++ BoundVal.fieldsThunkIds rest

/-- `BoundVal.thunkIds` over array elements. -/
def BoundVal.listThunkIds : List BoundVal → List Nat
  | [] => []
  | v :: rest => v.thunkIds ++ BoundVal.listThunkIds rest

end

mutual

/-- Whether a `bind` output still contains a fixture-template value at any
depth (it never does: fixtures are replaced by thunks). -/
def BoundVal.hasFixture : BoundVal → Bool
  | .thunk _ => false
  | .obj fields => BoundVal.fieldsHaveFixture fields
  | .arr elems => BoundVal.listHasFixture elems
  | .prim _ => false

/-- `BoundVal.hasFixture` over object fields. -/
def BoundVal.fieldsHaveFixture : List (String × BoundVal) → Bool
  | [] => false
  | (_, v) :: rest => v.hasFixture || BoundVal.fieldsHaveFixture rest

/-- `BoundVal.hasFixture` over array elements. -/
def BoundVal.listHasFixture : List BoundVal → Bool
  | [] => false
  | v :: rest => v.hasFixture || BoundVal.listHasFixture rest

end

/-- The string-typed column keys of an entity's collected schema, in order. -/
def stringColumnKeys (env : Env) (entity : Nat) : List String :=
  (env.columns entity).filterMap fun k =>
    match k with
    | .str s => some s
    | .sym _ => none

/-- The fixture ids a single initializer value makes its owner depend on:
the fixture itself for a fixture value, the elements for an array all of
whose elements are fixtures — exactly the two cases in which `resolveProp`
registers dependencies and recurses into `buildFixtureInstance`. -/
def entryFixtureRefs : RVal → List Nat
  | .fx g => [g]
  | .arr vs =>
    if vs.all RVal.isFixture then
      vs.filterMap (fun v => match v with | .fx g => some g | _ => none)
    else []
  | _ => []

/-- The entries `initFixture` iterates for a fixture, given the owner
instance its initializer function receives (if the initializer is a
function). -/
def initEntriesOf (env : Env) (fid : Nat) (ownerInstance : Option Nat) :
    List (String × RVal) :=
  match (env.fixtures fid).init with
  | none => []
  | some (.record es) => es
  | some (.fn f) => f ownerInstance

/-- The fixture dependency relation of claim C4: `g` appears as a fixture
value (or as an element of an all-fixture array value) in an initializer
record of `f`. -/
def dependsOn (env : Env) (f g : Nat) : Prop :=
  ∃ ownerInstance kv, kv ∈ initEntriesOf env f ownerInstance ∧ g ∈ entryFixtureRefs kv.2

/-- Well-formedness of a stored dependency entry: a valid save order, and an
accessor that is a thunk — either the wrapping closure `() => instance` over
a non-function value, or a user-supplied function value stored as-is. -/
def DepWF (d : Dependency) : Prop :=
  (d.saveOrder = .before ∨ d.saveOrder = .after) ∧
  ((∃ v, d.inst = .wrapped v ∧ v.isFunction = false) ∨
   (∃ v, d.inst = .direct v ∧ v.isFunction = true))

mutual

/-- The save procedure exactly as claim C1 narrates it: split the registered
dependencies into the `'before'` and `'after'` buckets, save the `'before'`
bucket sequentially in registration order, then the fixture's own instance
via its repository, then the `'after'` bucket sequentially in registration
order. -/
def specSaveFixtureInstance (env : Env) (fuel : Nat) (st : ProviderState)
    (fid : Nat) (iid : Nat) : Option (List SaveEvent × ProviderState) :=
  match fuel with
  | 0 => none
  | fuel + 1 =>
    let buckets := (depsOf st fid).partition Dependency.isBefore
    match specSaveSeq env fuel st buckets.1 with
    | none => none
    | some (evB, st1) =>
      let st2 := heapModify st1 iid fun inst =>
        (env.savedFields (env.fixtures fid).Entity).foldl
          (fun i kv => assignProp i kv.1 (PropVal.data kv.2)) inst
      match specSaveSeq env fuel st2 buckets.2 with
      | none => none
      | some (evA, st3) =>
        some (evB ++ [SaveEvent.repoSave (env.fixtures fid).Entity iid] ++ evA, st3)
termination_by structural fuel

/-- One bucket saved sequentially, each dependency awaited before the next
begins: a fixture-derived dependency recurses into the same procedure, a
non-fixture dependency goes directly through the entity manager. -/
def specSaveSeq (env : Env) (fuel : Nat) (st : ProviderState)
    (deps : List Dependency) : Option (List SaveEvent × ProviderState) :=
  match fuel with
  | 0 => none
  | fuel + 1 =>
    match deps with
    | [] => some ([], st)
    | d :: rest =>
      match d.fixture with
      | some g =>
        match specSaveFixtureInstance env fuel st g ((d.inst.call env).refId) with
        | none => none
        | some (ev1, st1) =>
          match specSaveSeq env fuel st1 rest with
          | none => none
          | some (ev2, st2) => some (ev1 ++ ev2, st2)
      | none =>
        match specSaveSeq env fuel st rest with
        | none => none
        | some (ev2, st2) => some (SaveEvent.emSave (d.inst.call env) :: ev2, st2)
termination_by structural fuel

end

/-- Every memoized instance binding of `st` survives into `st'` (the
`instances` map only ever grows, and existing bindings are never
overwritten). -/
def InstancesExtend (st st' : ProviderState) : Prop :=
  ∀ x i, mapGet st.instances x = some i → mapGet st'.instances x = some i

/-- Every dependency entry of `st'` either was already registered in `st`,
or is a well-formed entry whose fixture field (when present) respects the
dependency relation of the environment. -/
def DepsExtend (env : Env) (st st' : ProviderState) : Prop :=
  ∀ owner d, d ∈ depsOf st' owner →
    d ∈ depsOf st owner ∨ (DepWF d ∧ ∀ g, d.fixture = some g → dependsOn env owner g)

/-- The combined state-extension property the build cluster maintains. -/
def ExtendsP (env : Env) (st st' : ProviderState) : Prop :=
  InstancesExtend st st' ∧ DepsExtend env st st'

/-! ## Concrete sample data (used by witnesses and counterexamples) -/

/-- A sample environment: fixture `0` (entity `0`) initializes a name, a
single related fixture `1`, an array of two fixture `2`s and a function
value, and declares one modifier; fixture `1` (entity `1`) has a default
overwritten by its initializer; fixture `2` (entity `2`) has no
initializer. -/
def sampleEnv : Env where
  fixtures := fun fid =>
    if fid = 0 then
      { Entity := 0,
        init := some (.record
          [("name", .prim 1), ("org", .fx 1),
           ("tags", .arr [.fx 2, .fx 2]), ("rand", .fn 7)]),
        modifiers := ["promote"] }
    else if fid = 1 then
      { Entity := 1, init := some (.record [("title", .prim 2)]), modifiers := [] }
    else
      { Entity := 2, init := none, modifiers := [] }
  columns := fun e => if e = 0 then [.str "name", .sym 3] else [.str "title"]
  defaults := fun e => if e = 1 then [("title", .prim 99)] else []
  funcs := fun _ => .prim 42
  savedFields := fun _ => [("id", .prim 9)]

/-- A sample provider state with one empty instance object in the heap. -/
def sampleState : ProviderState :=
  { nextId := 1, heap := [(0, [])], instances := [], dependencies := [] }

/-- An environment whose fixture `0` declares a modifier named `save`:
the input claim C6 fails on it, because the non-enumerable `save` operation
is installed by `defineProperty` after `Object.assign` has copied the
wrapped modifiers, so it overwrites the wrapped modifier method. -/
def modSaveEnv : Env where
  fixtures := fun _ => { Entity := 0, init := none, modifiers := ["save"] }
  columns := fun _ => []
  defaults := fun _ => []
  funcs := fun _ => .prim 0
  savedFields := fun _ => []

/-- The instance object built from `modSaveEnv`'s fixture `0`. -/
def modSaveInstance : Option Instance :=
  (buildFixtureInstance modSaveEnv 2 .empty 0 none).bind fun p => mapGet p.2.heap 0

/-- An acyclic two-fixture environment: fixture `0` references fixture `1`
in its initializer, fixture `1` references nothing. -/
def chainEnv : Env where
  fixtures := fun fid =>
    if fid = 0 then
      { Entity := 0, init := some (.record [("org", .fx 1)]), modifiers := [] }
    else
      { Entity := 1, init := none, modifiers := [] }
  columns := fun _ => []
  defaults := fun _ => []
  funcs := fun _ => .prim 0
  savedFields := fun _ => []

/-- A ranking witnessing the acyclicity of `chainEnv`'s dependency
relation. -/
def chainRank : Nat → Nat := fun f => if f = 0 then 1 else 0

/-! ## Basic lemmas about the map and object-property operations -/

theorem mapGet_mapSet_self {α : Type} (m : List (Nat × α)) (k : Nat) (v : α) :
    mapGet (mapSet m k v) k = some v := by
  induction m with
  | nil => simp [mapGet, mapSet]
  | cons hd tl ih =>
    obtain ⟨a, b⟩ := hd
    by_cases h : a = k
    · simp [mapGet, mapSet, h]
    · simp [mapGet, mapSet, h, ih]

theorem mapGet_mapSet_ne {α : Type} (m : List (Nat × α)) (k k' : Nat) (v : α)
    (h : k ≠ k') : mapGet (mapSet m k v) k' = mapGet m k' := by
  induction m with
  | nil => simp [mapGet, mapSet, h]
  | cons hd tl ih =>
    obtain ⟨a, b⟩ := hd
    by_cases ha : a = k
    · subst ha
      simp [mapGet, mapSet, h]
    · simp [mapGet, mapSet, ha, ih]

theorem lookupProp_assignProp_self (inst : Instance) (key : String) (v : PropVal) :
    lookupProp (assignProp inst key v) key =
      some ⟨v, ((lookupProp inst key).map InstProp.enumerable).getD true⟩ := by
  induction inst with
  | nil => simp [lookupProp, assignProp]
  | cons hd tl ih =>
    obtain ⟨k, p⟩ := hd
    by_cases h : k = key
    · simp [lookupProp, assignProp, h]
    · simp [lookupProp, assignProp, h, ih]

theorem lookupProp_assignProp_ne (inst : Instance) (key k' : String) (v : PropVal)
    (h : k' ≠ key) : lookupProp (assignProp inst key v) k' = lookupProp inst k' := by
  have h2 : ¬ key = k' := fun hh => h hh.symm
  induction inst with
  | nil => simp [lookupProp, assignProp, h2]
  | cons hd tl ih =>
    obtain ⟨k, p⟩ := hd
    by_cases hk : k = key
    · subst hk
      simp [lookupProp, assignProp, h2]
    · by_cases hk' : k = k'
      · subst hk'
        simp [lookupProp, assignProp, hk, h]
      · simp [lookupProp, assignProp, hk, hk', ih]

theorem lookupProp_defineProp_self (inst : Instance) (key : String) (v : PropVal)
    (e : Bool) : lookupProp (defineProp inst key v e) key = some ⟨v, e⟩ := by
  induction inst with
  | nil => simp [lookupProp, defineProp]
  | cons hd tl ih =>
    obtain ⟨k, p⟩ := hd
    by_cases h : k = key
    · simp [lookupProp, defineProp, h]
    · simp [lookupProp, defineProp, h, ih]

theorem lookupProp_defineProp_ne (inst : Instance) (key k' : String) (v : PropVal)
    (e : Bool) (h : k' ≠ key) :
    lookupProp (defineProp inst key v e) k' = lookupProp inst k' := by
  have h2 : ¬ key = k' := fun hh => h hh.symm
  induction inst with
  | nil => simp [lookupProp, defineProp, h2]
  | cons hd tl ih =>
    obtain ⟨k, p⟩ := hd
    by_cases hk : k = key
    · subst hk
      simp [lookupProp, defineProp, h2]
    · by_cases hk' : k = k'
      · subst hk'
        simp [lookupProp, defineProp, hk, h]
      · simp [lookupProp, defineProp, hk, hk', ih]

/-! ## C8: the installed `with_` setters -/

/-- C8: for every string column key `key` and every value `v`, the installed
setter `with_key(v)` assigns `v` to the instance's property `key`, changes no
other property of the instance (and no other heap object), and returns the
very same instance object, so setter calls chain. -/
theorem C8_setter_assigns_and_chains (st : ProviderState) (iid : Nat)
    (key : String) (v : RVal) (inst : Instance)
    (h : mapGet st.heap iid = some inst) :
    (callSetter st iid key v).2 = iid ∧
    mapGet (callSetter st iid key v).1.heap iid =
      some (assignProp inst key (.data v)) ∧
    (lookupProp (assignProp inst key (.data v)) key).map InstProp.value =
      some (.data v) ∧
    (∀ k', k' ≠ key →
      lookupProp (assignProp inst key (.data v)) k' = lookupProp inst k') ∧
    (∀ j, j ≠ iid →
      mapGet (callSetter st iid key v).1.heap j = mapGet st.heap j) ∧
    (callSetter st iid key v).1.instances = st.instances ∧
    (callSetter st iid key v).1.dependencies = st.dependencies := by
  refine ⟨rfl, ?_, ?_, ?_, ?_, rfl, rfl⟩
  · simp [callSetter, heapModify, h, mapGet_mapSet_self]
  · simp [lookupProp_assignProp_self]
  · intro k' hk'
    exact lookupProp_assignProp_ne inst key k' (.data v) hk'
  · intro j hj
    simp [callSetter, heapModify, h]
    exact mapGet_mapSet_ne st.heap iid j _ (fun hh => hj hh.symm)

/-- Witness for C8 at a concrete instance: setting `name` on the empty
instance `0` of `sampleState`. -/
theorem C8_setter_witness :
    (callSetter sampleState 0 "name" (.prim 5)).2 = 0 ∧
    mapGet (callSetter sampleState 0 "name" (.prim 5)).1.heap 0 =
      some (assignProp [] "name" (.data (.prim 5))) :=
  ⟨(C8_setter_assigns_and_chains sampleState 0 "name" (.prim 5) [] rfl).1,
   (C8_setter_assigns_and_chains sampleState 0 "name" (.prim 5) [] rfl).2.1⟩

/-! ## C9: the wrapped modifier methods -/

/-- C9: for every declared modifier and argument list, the wrapped method
returns the underlying modifier's result when that result is neither `null`
nor `undefined`, and otherwise returns the fixture instance itself; the
wrapped call therefore never yields a nullish result.  The provider state
the modifier produced is passed through unchanged. -/
theorem C9_modifier_never_nullish
    (modifier : Nat → List RVal → ProviderState → RVal × ProviderState)
    (iid : Nat) (args : List RVal) (st : ProviderState) :
    (wrapModifier modifier iid args st).1 =
      (if (modifier iid args st).1.isNullish then .ref iid
       else (modifier iid args st).1) ∧
    (wrapModifier modifier iid args st).2 = (modifier iid args st).2 ∧
    (wrapModifier modifier iid args st).1.isNullish = false := by
  refine ⟨rfl, rfl, ?_⟩
  cases hn : (modifier iid args st).1.isNullish with
  | true =>
    have hw : (wrapModifier modifier iid args st).1 = .ref iid := by
      simp [wrapModifier, hn]
    rw [hw]
    rfl
  | false =>
    have hw : (wrapModifier modifier iid args st).1 = (modifier iid args st).1 := by
      simp [wrapModifier, hn]
    rw [hw, hn]

/-! ## C1 and C10: the save procedure -/

/-- `List.filter` with `isAfter` is the complement bucket of `isBefore`. -/
theorem filter_isAfter_eq (ds : List Dependency) :
    ds.filter (not ∘ Dependency.isBefore) = ds.filter Dependency.isAfter := by
  apply List.filter_congr
  intro d _
  cases hso : d.saveOrder <;>
    simp [Function.comp, Dependency.isBefore, Dependency.isAfter, hso]

/-- The partition of the registered dependencies into the two buckets is the
pair of the two filters the implementation takes. -/
theorem partition_deps (ds : List Dependency) :
    ds.partition Dependency.isBefore =
      (ds.filter Dependency.isBefore, ds.filter Dependency.isAfter) := by
  rw [List.partition_eq_filter_filter]
  rw [filter_isAfter_eq]

/-- The implementation's save procedure agrees with the claim-C1 narration
(`specSaveFixtureInstance`) at every fuel, state and fixture. -/
theorem save_eq_spec (env : Env) : ∀ fuel : Nat,
    (∀ st fid iid, saveFixtureInstance env fuel st fid iid =
      specSaveFixtureInstance env fuel st fid iid) ∧
    (∀ st ds, saveDeps env fuel st ds = specSaveSeq env fuel st ds) := by
  intro fuel
  induction fuel with
  | zero => exact ⟨fun _ _ _ => rfl, fun _ _ => rfl⟩
  | succ fuel ih =>
    constructor
    · intro st fid iid
      simp only [saveFixtureInstance, specSaveFixtureInstance, partition_deps]
      simp only [ih.2]
    · intro st ds
      cases ds with
      | nil => rfl
      | cons d rest =>
        simp only [saveDeps, specSaveSeq]
        cases d.fixture with
        | none => simp only [ih.2]
        | some g => simp only [ih.1, ih.2]

/-- C1: for every fixture on which the save operation is invoked, the
persistence calls are issued sequentially and in the claimed order — every
registered `'before'` dependency in registration order, then the fixture's
own instance via its repository, then every registered `'after'` dependency
in registration order; fixture-derived dependencies recurse into the same
procedure and other dependencies go directly through the entity manager.
Formally: `saveFixtureInstance` equals the claim's narration
`specSaveFixtureInstance` at every fuel, state, fixture and instance. -/
theorem C1_save_order (env : Env) (fuel : Nat) (st : ProviderState)
    (fid : Nat) (iid : Nat) :
    saveFixtureInstance env fuel st fid iid =
      specSaveFixtureInstance env fuel st fid iid :=
  (save_eq_spec env fuel).1 st fid iid

/-! ## C2: resolution of initializer entries -/

/-- C2: during initialization, every entry of the initializer is resolved as
claimed: the loop assigns each resolved value in place of the entry; a
fixture value is built and registered as a `'before'` dependency; an array
all of whose elements are fixtures becomes the array of built instances with
each element registered `'after'`; a function value is replaced by the result
of calling it with no arguments; any other value is assigned unchanged. -/
theorem C2_initializer_resolution (env : Env) (fuel : Nat) (st : ProviderState)
    (fid : Nat) (iid : Nat) :
    (∀ key value rest,
      initEntries env (fuel + 1) st fid iid ((key, value) :: rest) =
        match resolveProp env fuel st fid iid value with
        | none => none
        | some (rv, st1) =>
          initEntries env fuel
            (heapModify st1 iid fun inst => assignProp inst key (.data rv))
            fid iid rest) ∧
    (∀ g gi st1,
      buildFixtureInstance env fuel st g (some iid) = some (gi, st1) →
      resolveProp env (fuel + 2) st fid iid (.fx g) =
        some (.ref gi, addDependency st1 fid (some g) (.ref gi) .before)) ∧
    (∀ vs, vs.all RVal.isFixture = true →
      resolveProp env (fuel + 1) st fid iid (.arr vs) =
        (resolveDepList env fuel st fid (some iid) vs).map
          (fun p => (.arr p.1, p.2))) ∧
    (∀ g rest gi st1,
      buildFixtureInstance env fuel st g (some iid) = some (gi, st1) →
      resolveDepList env (fuel + 2) st fid (some iid) (.fx g :: rest) =
        (resolveDepList env (fuel + 1)
            (addDependency st1 fid (some g) (.ref gi) .after) fid (some iid) rest).map
          (fun p => (.ref gi :: p.1, p.2))) ∧
    (∀ fnid, resolveProp env (fuel + 1) st fid iid (.fn fnid) =
      some (env.funcs fnid, st)) ∧
    (∀ value, value.isFixture = false → value.isFunction = false →
      (∀ vs, value = .arr vs → vs.all RVal.isFixture = false) →
      resolveProp env (fuel + 1) st fid iid value = some (value, st)) := by
  refine ⟨fun key value rest => rfl, ?_, ?_, ?_, fun fnid => rfl, ?_⟩
  · intro g gi st1 h
    simp only [resolveProp, resolveDependency, h]
  · intro vs hall
    simp only [resolveProp, hall, if_true]
    cases resolveDepList env fuel st fid (some iid) vs with
    | none => rfl
    | some p => rfl
  · intro g rest gi st1 h
    have hd : resolveDependency env (fuel + 1) st fid (some iid) (.fx g) .after =
        some (.ref gi, addDependency st1 fid (some g) (.ref gi) .after) := by
      simp only [resolveDependency, h]
    show (match resolveDependency env (fuel + 1) st fid (some iid) (.fx g) .after with
      | none => none
      | some (rv, st1) =>
        match resolveDepList env (fuel + 1) st1 fid (some iid) rest with
        | none => none
        | some (rvs, st2) => some (rv :: rvs, st2)) = _
    rw [hd]
    cases hres : resolveDepList env (fuel + 1)
        (addDependency st1 fid (some g) (.ref gi) .after) fid (some iid) rest with
    | none => simp [hres]
    | some p => simp [hres]
  · intro value hfx hfn harr
    cases value with
    | fx g => exact absurd hfx (by simp [RVal.isFixture])
    | fn fnid => exact absurd hfn (by simp [RVal.isFunction])
    | thunkRef r => exact absurd hfn (by simp [RVal.isFunction])
    | arr vs =>
      have := harr vs rfl
      simp only [resolveProp, this]
      rfl
    | prim n => rfl
    | nullV => rfl
    | undefV => rfl
    | ref i => rfl

/-- Witness for C2 at concrete inputs: a plain value is assigned unchanged
and a function value is replaced by its call result. -/
theorem C2_witness :
    resolveProp sampleEnv 2 .empty 0 0 (.prim 3) = some (.prim 3, .empty) ∧
    resolveProp sampleEnv 2 .empty 0 0 (.fn 7) = some (.prim 42, .empty) := by
  constructor
  · exact (C2_initializer_resolution sampleEnv 1 .empty 0 0).2.2.2.2.2 (.prim 3)
      rfl rfl (fun vs h => RVal.noConfusion h)
  · exact (C2_initializer_resolution sampleEnv 1 .empty 0 0).2.2.2.2.1 7

/-! ## C5: bind is lazy -/

mutual

/-- `deepMapFixtures` sends the fixtures of the input, at any nesting depth
and in traversal order, to the thunks of the output. -/
theorem thunkIds_deepMap : ∀ v : BindVal,
    (deepMapFixtures v).thunkIds = v.fixtureIds
  | .fx fid => rfl
  | .obj fields => by
    simp only [deepMapFixtures, BoundVal.thunkIds, BindVal.fixtureIds]
    exact thunkIds_deepMapFields fields
  | .arr elems => by
    simp only [deepMapFixtures, BoundVal.thunkIds, BindVal.fixtureIds]
    exact thunkIds_deepMapList elems
  | .prim _ => rfl

/-- `thunkIds_deepMap` over object fields. -/
theorem thunkIds_deepMapFields : ∀ fs : List (String × BindVal),
    BoundVal.fieldsThunkIds (deepMapFixturesFields fs) =
      BindVal.fieldsFixtureIds fs
  | [] => rfl
  | (k, v) :: rest => by
    simp only [deepMapFixturesFields, BoundVal.fieldsThunkIds,
      BindVal.fieldsFixtureIds]
    rw [thunkIds_deepMap v, thunkIds_deepMapFields rest]

/-- `thunkIds_deepMap` over array elements. -/
theorem thunkIds_deepMapList : ∀ es : List BindVal,
    BoundVal.listThunkIds (deepMapFixturesList es) =
      BindVal.listFixtureIds es
  | [] => rfl
  | v :: rest => by
    simp only [deepMapFixturesList, BoundVal.listThunkIds,
      BindVal.listFixtureIds]
    rw [thunkIds_deepMap v, thunkIds_deepMapList rest]

end

mutual

/-- No fixture-template value survives `deepMapFixtures`. -/
theorem hasFixture_deepMap : ∀ v : BindVal,
    (deepMapFixtures v).hasFixture = false
  | .fx fid => rfl
  | .obj fields => by
    simp only [deepMapFixtures, BoundVal.hasFixture]
    exact hasFixture_deepMapFields fields
  | .arr elems => by
    simp only [deepMapFixtures, BoundVal.hasFixture]
    exact hasFixture_deepMapList elems
  | .prim _ => rfl

/-- `hasFixture_deepMap` over object fields. -/
theorem hasFixture_deepMapFields : ∀ fs : List (String × BindVal),
    BoundVal.fieldsHaveFixture (deepMapFixturesFields fs) = false
  | [] => rfl
  | (k, v) :: rest => by
    simp only [deepMapFixturesFields, BoundVal.fieldsHaveFixture]
    rw [hasFixture_deepMap v, hasFixture_deepMapFields rest]
    rfl

/-- `hasFixture_deepMap` over array elements. -/
theorem hasFixture_deepMapList : ∀ es : List BindVal,
    BoundVal.listHasFixture (deepMapFixturesList es) = false
  | [] => rfl
  | v :: rest => by
    simp only [deepMapFixturesList, BoundVal.listHasFixture]
    rw [hasFixture_deepMap v, hasFixture_deepMapList rest]
    rfl

end

/-- C5: `bind(fixtures)` builds no entity instance and leaves the provider's
state (heap, instances and dependencies tables) unchanged; it replaces every
fixture value found in the input record, at any nesting depth, by a
zero-argument function, and invoking that function is exactly
`buildFixtureInstance` — only then is an entity instance constructed. -/
theorem C5_bind_is_lazy (env : Env) (fuel : Nat) (st : ProviderState)
    (fixtures : BindVal) (fid : Nat) :
    (bind st fixtures).2 = st ∧
    (bind st fixtures).1 = deepMapFixtures fixtures ∧
    ((bind st fixtures).1).thunkIds = fixtures.fixtureIds ∧
    ((bind st fixtures).1).hasFixture = false ∧
    bind st (.fx fid) = (.thunk fid, st) ∧
    invokeBoundFixture env fuel st fid = buildFixtureInstance env fuel st fid none :=
  ⟨rfl, rfl, thunkIds_deepMap fixtures, hasFixture_deepMap fixtures, rfl, rfl⟩

/-! ## C6: the augmentation installed by `fixturize` -/

/-- `"with_" ++ k` determines `k`. -/
theorem withKey_inj {k k' : String} (h : "with_" ++ k = "with_" ++ k') :
    k = k' := by
  have hd := congrArg String.data h
  simp [String.data_append] at hd
  exact String.ext hd

/-- A setter name is never `"save"`. -/
theorem withKey_ne_save (k : String) : ("with_" ++ k) ≠ "save" := by
  intro h
  have hl := congrArg String.length h
  simp [String.length_append] at hl
  have h5 : "with_".length = 5 := rfl
  have h4 : "save".length = 4 := rfl
  omega

/-- Membership in the string column keys is membership of the string key in
the columns. -/
theorem mem_stringColumnKeys (env : Env) (e : Nat) (k : String) :
    k ∈ stringColumnKeys env e ↔ ColKey.str k ∈ env.columns e := by
  simp only [stringColumnKeys, List.mem_filterMap]
  constructor
  · rintro ⟨c, hc, hck⟩
    cases c with
    | str s =>
      simp at hck
      exact hck ▸ hc
    | sym n => simp at hck
  · intro hc
    exact ⟨.str k, hc, rfl⟩

/-- `installSetters` does not touch a property whose name is no setter name
of the installed columns. -/
theorem lookup_installSetters_skip (cols : List ColKey) (inst : Instance)
    (name : String) (h : ∀ k, ColKey.str k ∈ cols → "with_" ++ k ≠ name) :
    lookupProp (installSetters cols inst) name = lookupProp inst name := by
  induction cols generalizing inst with
  | nil => rfl
  | cons c rest ih =>
    cases c with
    | str s =>
      have step : installSetters (ColKey.str s :: rest) inst =
          installSetters rest (defineProp inst ("with_" ++ s) (.setterFn s) false) := rfl
      rw [step, ih _ (fun k hk => h k (List.mem_cons_of_mem _ hk))]
      exact lookupProp_defineProp_ne inst ("with_" ++ s) name (.setterFn s) false
        (fun hh => h s (List.mem_cons_self _ _) hh.symm)
    | sym n =>
      have step : installSetters (ColKey.sym n :: rest) inst =
          installSetters rest inst := rfl
      rw [step]
      exact ih inst (fun k hk => h k (List.mem_cons_of_mem _ hk))

/-- After `installSetters`, every installed string column key carries its
non-enumerable setter. -/
theorem lookup_installSetters_mem (cols : List ColKey) (inst : Instance)
    (k : String) (hk : ColKey.str k ∈ cols) :
    lookupProp (installSetters cols inst) ("with_" ++ k) =
      some ⟨.setterFn k, false⟩ := by
  induction cols generalizing inst with
  | nil => cases hk
  | cons c rest ih =>
    by_cases hmem : ColKey.str k ∈ rest
    · cases c with
      | str s =>
        have step : installSetters (ColKey.str s :: rest) inst =
            installSetters rest (defineProp inst ("with_" ++ s) (.setterFn s) false) := rfl
        rw [step]
        exact ih (defineProp inst ("with_" ++ s) (.setterFn s) false) hmem
      | sym n =>
        have step : installSetters (ColKey.sym n :: rest) inst =
            installSetters rest inst := rfl
        rw [step]
        exact ih inst hmem
    · have hc : c = ColKey.str k := by
        rcases List.mem_cons.mp hk with h | h
        · exact h.symm
        · exact absurd h hmem
      subst hc
      have step : installSetters (ColKey.str k :: rest) inst =
          installSetters rest (defineProp inst ("with_" ++ k) (.setterFn k) false) := rfl
      rw [step]
      rw [lookup_installSetters_skip rest
        (defineProp inst ("with_" ++ k) (.setterFn k) false) ("with_" ++ k)
        (fun k' hk' hh => hmem (withKey_inj hh ▸ hk'))]
      exact lookupProp_defineProp_self inst ("with_" ++ k) (.setterFn k) false

/-- `installModifiers` does not touch a property that is no modifier name. -/
theorem lookup_installModifiers_skip (mods : List String) (inst : Instance)
    (name : String) (h : name ∉ mods) :
    lookupProp (installModifiers mods inst) name = lookupProp inst name := by
  induction mods generalizing inst with
  | nil => rfl
  | cons m rest ih =>
    have step : installModifiers (m :: rest) inst =
        installModifiers rest (assignProp inst m (.modifierFn m)) := rfl
    rw [step, ih (assignProp inst m (.modifierFn m))
      (fun hmem => h (List.mem_cons_of_mem _ hmem))]
    exact lookupProp_assignProp_ne inst m name (.modifierFn m)
      (fun hh => h (hh ▸ List.mem_cons_self _ _))

/-- After `installModifiers`, every declared modifier name carries its
wrapped modifier method. -/
theorem lookup_installModifiers_mem (mods : List String) (inst : Instance)
    (m : String) (hm : m ∈ mods) :
    (lookupProp (installModifiers mods inst) m).map InstProp.value =
      some (.modifierFn m) := by
  induction mods generalizing inst with
  | nil => cases hm
  | cons m0 rest ih =>
    by_cases hmem : m ∈ rest
    · have step : installModifiers (m0 :: rest) inst =
          installModifiers rest (assignProp inst m0 (.modifierFn m0)) := rfl
      rw [step]
      exact ih (assignProp inst m0 (.modifierFn m0)) hmem
    · have hm0 : m0 = m := by
        rcases List.mem_cons.mp hm with h | h
        · exact h.symm
        · exact absurd h hmem
      subst hm0
      have step : installModifiers (m0 :: rest) inst =
          installModifiers rest (assignProp inst m0 (.modifierFn m0)) := rfl
      rw [step]
      rw [lookup_installModifiers_skip rest
        (assignProp inst m0 (.modifierFn m0)) m0 hmem]
      rw [lookupProp_assignProp_self]
      rfl

/-- C6 (amended): on every instance, `fixturize` installs, for each
string-typed column key `k` of the entity's collected schema, a
non-enumerable `with_k` setter — provided no declared modifier is named
`with_k` —, one wrapped method per declared modifier whose name is not
`save`, and a non-enumerable `save` operation bound to the fixture. -/
theorem C6_fixturize_augments (env : Env) (st : ProviderState) (fid : Nat)
    (iid : Nat) (inst : Instance) (h : mapGet st.heap iid = some inst) :
    ∃ instF, mapGet (fixturize env st fid iid).heap iid = some instF ∧
      (∀ k, k ∈ stringColumnKeys env (env.fixtures fid).Entity →
        ("with_" ++ k) ∉ (env.fixtures fid).modifiers →
        lookupProp instF ("with_" ++ k) = some ⟨.setterFn k, false⟩) ∧
      (∀ m, m ∈ (env.fixtures fid).modifiers → m ≠ "save" →
        (lookupProp instF m).map InstProp.value = some (.modifierFn m)) ∧
      lookupProp instF "save" = some ⟨.saveFn fid, false⟩ := by
  refine ⟨defineProp
      (installModifiers (env.fixtures fid).modifiers
        (installSetters (env.columns (env.fixtures fid).Entity) inst))
      "save" (.saveFn fid) false, ?_, ?_, ?_, ?_⟩
  · simp [fixturize, heapModify, h, mapGet_mapSet_self]
  · intro k hk hkm
    rw [lookupProp_defineProp_ne _ _ _ _ _ (withKey_ne_save k)]
    rw [lookup_installModifiers_skip _ _ _ hkm]
    exact lookup_installSetters_mem _ inst k
      ((mem_stringColumnKeys env _ k).mp hk)
  · intro m hm hms
    rw [lookupProp_defineProp_ne _ _ _ _ _ hms]
    exact lookup_installModifiers_mem _ _ m hm
  · exact lookupProp_defineProp_self _ "save" (.saveFn fid) false

/-- Witness for C6 on `sampleEnv`: the built instance carries the setter,
the wrapped modifier and the save operation. -/
theorem C6_witness :
    ∃ instF, mapGet (fixturize sampleEnv sampleState 0 0).heap 0 = some instF ∧
      lookupProp instF ("with_" ++ "name") = some ⟨.setterFn "name", false⟩ ∧
      (lookupProp instF "promote").map InstProp.value = some (.modifierFn "promote") ∧
      lookupProp instF "save" = some ⟨.saveFn 0, false⟩ := by
  obtain ⟨instF, h1, h2, h3, h4⟩ :=
    C6_fixturize_augments sampleEnv sampleState 0 0 [] rfl
  refine ⟨instF, h1, ?_, ?_, h4⟩
  · exact h2 "name" (by simp [stringColumnKeys, sampleEnv]) (by simp [sampleEnv])
  · exact h3 "promote" (by simp [sampleEnv]) (by simp)

/-- Counterexample to C6 as stated: a fixture that declares a modifier named
`save` does not carry the wrapped modifier method on its built instance —
the non-enumerable save operation, installed last, overwrites it. -/
theorem C6_counterexample :
    "save" ∈ (modSaveEnv.fixtures 0).modifiers ∧
    modSaveInstance.map (fun i => lookupProp i "save") =
      some (some ⟨.saveFn 0, false⟩) ∧
    ∀ e : Bool, (InstProp.mk (.saveFn 0) false) ≠ ⟨.modifierFn "save", e⟩ :=
  ⟨by simp [modSaveEnv], rfl,
   fun e h => PropVal.noConfusion (congrArg InstProp.value h)⟩

/-! ## State extension through the build cluster -/

theorem depsOf_addDependency_self (st : ProviderState) (owner : Nat)
    (fixture : Option Nat) (v : RVal) (so : SaveOrder) :
    depsOf (addDependency st owner fixture v so) owner =
      depsOf st owner ++
        [{ fixture := fixture,
           inst := if v.isFunction then .direct v else .wrapped v,
           saveOrder := so }] := by
  simp [addDependency, depsOf, mapGet_mapSet_self]

theorem depsOf_addDependency_ne (st : ProviderState) (o' owner : Nat)
    (fixture : Option Nat) (v : RVal) (so : SaveOrder) (h : o' ≠ owner) :
    depsOf (addDependency st o' fixture v so) owner = depsOf st owner := by
  simp [addDependency, depsOf, mapGet_mapSet_ne _ _ _ _ h]

theorem ExtendsP_refl (env : Env) (st : ProviderState) : ExtendsP env st st :=
  ⟨fun _ _ h => h, fun _ _ hd => Or.inl hd⟩

theorem ExtendsP_trans {env : Env} {st1 st2 st3 : ProviderState}
    (h12 : ExtendsP env st1 st2) (h23 : ExtendsP env st2 st3) :
    ExtendsP env st1 st3 := by
  refine ⟨fun x i h => h23.1 x i (h12.1 x i h), fun o d hd => ?_⟩
  rcases h23.2 o d hd with h | h
  · exact h12.2 o d h
  · exact Or.inr h

theorem ExtendsP_of_tables_eq {env : Env} {st st' : ProviderState}
    (h1 : st'.instances = st.instances) (h2 : st'.dependencies = st.dependencies) :
    ExtendsP env st st' := by
  constructor
  · intro x i h
    rw [h1]
    exact h
  · intro o d hd
    left
    rw [show depsOf st' o = depsOf st o from by simp [depsOf, h2]] at hd
    exact hd

theorem ExtendsP_addDependency (env : Env) (st : ProviderState) (owner : Nat)
    (fixture : Option Nat) (v : RVal) (so : SaveOrder)
    (hfix : ∀ g, fixture = some g → dependsOn env owner g) :
    ExtendsP env st (addDependency st owner fixture v so) := by
  constructor
  · intro x i h
    exact h
  · intro o d hd
    by_cases ho : o = owner
    · subst ho
      rw [depsOf_addDependency_self] at hd
      rcases List.mem_append.mp hd with h | h
      · exact Or.inl h
      · right
        have hd' : d =
            { fixture := fixture,
              inst := if v.isFunction then .direct v else .wrapped v,
              saveOrder := so } := by simpa using h
        subst hd'
        refine ⟨⟨?_, ?_⟩, hfix⟩
        · cases so
          · exact Or.inl rfl
          · exact Or.inr rfl
        · by_cases hv : v.isFunction = true
          · exact Or.inr ⟨v, by simp [hv], hv⟩
          · exact Or.inl ⟨v, by simp [hv], by simpa using hv⟩
    · rw [depsOf_addDependency_ne st owner o fixture v so (fun hh => ho hh.symm)] at hd
      exact Or.inl hd

theorem buildOrReuse_hit (env : Env) (st : ProviderState) (fid iid : Nat)
    (h : mapGet st.instances fid = some iid) :
    buildOrReuseInstance env st fid = (iid, st) := by
  simp [buildOrReuseInstance, h]

theorem buildOrReuse_miss (env : Env) (st : ProviderState) (fid : Nat)
    (h : mapGet st.instances fid = none) :
    buildOrReuseInstance env st fid =
      (st.nextId,
        { st with
          nextId := st.nextId + 1,
          heap := mapSet st.heap st.nextId
            (applyDefaults env (env.fixtures fid).Entity repositoryCreate),
          instances := mapSet st.instances fid st.nextId }) := by
  simp [buildOrReuseInstance, h]

theorem buildOrReuse_memo (env : Env) (st : ProviderState) (fid : Nat) :
    mapGet (buildOrReuseInstance env st fid).2.instances fid =
      some (buildOrReuseInstance env st fid).1 := by
  cases h : mapGet st.instances fid with
  | some iid => simp [buildOrReuse_hit env st fid iid h, h]
  | none => simp [buildOrReuse_miss env st fid h, mapGet_mapSet_self]

theorem ExtendsP_buildOrReuse (env : Env) (st : ProviderState) (fid : Nat) :
    ExtendsP env st (buildOrReuseInstance env st fid).2 := by
  cases h : mapGet st.instances fid with
  | some iid =>
    rw [buildOrReuse_hit env st fid iid h]
    exact ExtendsP_refl env st
  | none =>
    rw [buildOrReuse_miss env st fid h]
    constructor
    · intro x i hx
      have hxf : fid ≠ x := by
        intro hh
        rw [← hh, h] at hx
        exact Option.noConfusion hx
      show mapGet (mapSet st.instances fid st.nextId) x = some i
      rw [mapGet_mapSet_ne _ _ _ _ hxf]
      exact hx
    · intro o d hd
      exact Or.inl hd

theorem ExtendsP_fixturize (env : Env) (st : ProviderState) (fid iid : Nat) :
    ExtendsP env st (fixturize env st fid iid) :=
  ExtendsP_of_tables_eq rfl rfl

theorem ExtendsP_heapModify (env : Env) (st : ProviderState) (iid : Nat)
    (f : Instance → Instance) : ExtendsP env st (heapModify st iid f) :=
  ExtendsP_of_tables_eq rfl rfl

theorem mem_entryFixtureRefs_arr {vs : List RVal} {g : Nat}
    (hall : vs.all RVal.isFixture = true) (hmem : RVal.fx g ∈ vs) :
    g ∈ entryFixtureRefs (.arr vs) := by
  simp only [entryFixtureRefs, hall, if_pos]
  exact List.mem_filterMap.mpr ⟨.fx g, hmem, rfl⟩

theorem some_pair_eq {α β : Type} {a c : α} {b d : β}
    (h : some (a, b) = some (c, d)) : a = c ∧ b = d := by
  injection h with h1
  constructor
  · exact congrArg Prod.fst h1
  · exact congrArg Prod.snd h1

/-- Every function of the build cluster only extends the provider state:
memoized instances survive, and every dependency entry it adds is well
formed and respects the environment's dependency relation. -/
theorem buildCluster_extends (env : Env) : ∀ fuel : Nat,
    (∀ st fid own iid st',
      buildFixtureInstance env fuel st fid own = some (iid, st') →
      ExtendsP env st st') ∧
    (∀ st fid iid own st',
      initFixture env fuel st fid iid own = some st' → ExtendsP env st st') ∧
    (∀ st fid iid es st',
      (∀ kv, kv ∈ es → ∀ g, g ∈ entryFixtureRefs kv.2 → dependsOn env fid g) →
      initEntries env fuel st fid iid es = some st' → ExtendsP env st st') ∧
    (∀ st fid iid v rv st',
      (∀ g, g ∈ entryFixtureRefs v → dependsOn env fid g) →
      resolveProp env fuel st fid iid v = some (rv, st') → ExtendsP env st st') ∧
    (∀ st fid own vs rvs st',
      (∀ g, RVal.fx g ∈ vs → dependsOn env fid g) →
      resolveDepList env fuel st fid own vs = some (rvs, st') →
      ExtendsP env st st') ∧
    (∀ st fid own v so rv st',
      (∀ g, v = RVal.fx g → dependsOn env fid g) →
      resolveDependency env fuel st fid own v so = some (rv, st') →
      ExtendsP env st st') := by
  intro fuel
  induction fuel with
  | zero =>
    exact ⟨fun _ _ _ _ _ h => Option.noConfusion h,
           fun _ _ _ _ _ h => Option.noConfusion h,
           fun _ _ _ _ _ _ h => Option.noConfusion h,
           fun _ _ _ _ _ _ _ h => Option.noConfusion h,
           fun _ _ _ _ _ _ _ h => Option.noConfusion h,
           fun _ _ _ _ _ _ _ _ h => Option.noConfusion h⟩
  | succ fuel ih =>
    obtain ⟨ihB, ihIF, ihIE, ihRP, ihRDL, ihRD⟩ := ih
    have hRD : ∀ st fid own v so rv st',
        (∀ g, v = RVal.fx g → dependsOn env fid g) →
        resolveDependency env (fuel + 1) st fid own v so = some (rv, st') →
        ExtendsP env st st' := by
      intro st fid own v so rv st' hv h
      cases v with
      | fx g =>
        have hdep : dependsOn env fid g := hv g rfl
        revert h
        show (match buildFixtureInstance env fuel st g own with
          | none => none
          | some (iid, st1) =>
            some (RVal.ref iid, addDependency st1 fid (some g) (.ref iid) so)) =
            some (rv, st') → _
        cases hb : buildFixtureInstance env fuel st g own with
        | none => exact fun h => Option.noConfusion h
        | some p =>
          obtain ⟨bid, st1⟩ := p
          intro h
          injection h with h1
          have hst' : st' = addDependency st1 fid (some g) (.ref bid) so :=
            (congrArg Prod.snd h1).symm
          subst hst'
          exact ExtendsP_trans (ihB st g own bid st1 hb)
            (ExtendsP_addDependency env st1 fid (some g) (.ref bid) so
              (fun g2 hg2 => (Option.some.inj hg2) ▸ hdep))
      | fn fnid =>
        obtain ⟨h1, h2⟩ := some_pair_eq h
        subst h2
        exact ExtendsP_addDependency env st fid none (.fn fnid) so
          (fun g hg => Option.noConfusion hg)
      | arr vs =>
        obtain ⟨h1, h2⟩ := some_pair_eq h
        subst h2
        exact ExtendsP_addDependency env st fid none (.arr vs) so
          (fun g hg => Option.noConfusion hg)
      | prim n =>
        obtain ⟨h1, h2⟩ := some_pair_eq h
        subst h2
        exact ExtendsP_addDependency env st fid none (.prim n) so
          (fun g hg => Option.noConfusion hg)
      | nullV =>
        obtain ⟨h1, h2⟩ := some_pair_eq h
        subst h2
        exact ExtendsP_addDependency env st fid none .nullV so
          (fun g hg => Option.noConfusion hg)
      | undefV =>
        obtain ⟨h1, h2⟩ := some_pair_eq h
        subst h2
        exact ExtendsP_addDependency env st fid none .undefV so
          (fun g hg => Option.noConfusion hg)
      | ref i =>
        obtain ⟨h1, h2⟩ := some_pair_eq h
        subst h2
        exact ExtendsP_addDependency env st fid none (.ref i) so
          (fun g hg => Option.noConfusion hg)
      | thunkRef i =>
        obtain ⟨h1, h2⟩ := some_pair_eq h
        subst h2
        exact ExtendsP_addDependency env st fid none (.thunkRef i) so
          (fun g hg => Option.noConfusion hg)
    have hRDL : ∀ st fid own vs rvs st',
        (∀ g, RVal.fx g ∈ vs → dependsOn env fid g) →
        resolveDepList env (fuel + 1) st fid own vs = some (rvs, st') →
        ExtendsP env st st' := by
      intro st fid own vs rvs st' hv h
      cases vs with
      | nil =>
        obtain ⟨h1, h2⟩ := some_pair_eq h
        subst h2
        exact ExtendsP_refl env st
      | cons v rest =>
        revert h
        show (match resolveDependency env fuel st fid own v .after with
          | none => none
          | some (rv, st1) =>
            match resolveDepList env fuel st1 fid own rest with
            | none => none
            | some (rvs, st2) => some (rv :: rvs, st2)) = some (rvs, st') → _
        cases hd : resolveDependency env fuel st fid own v .after with
        | none => exact fun h => Option.noConfusion h
        | some p =>
          obtain ⟨rv1, st1⟩ := p
          show (match resolveDepList env fuel st1 fid own rest with
            | none => none
            | some (rvs2, st2) => some (rv1 :: rvs2, st2)) = some (rvs, st') → _
          cases hl : resolveDepList env fuel st1 fid own rest with
          | none => exact fun h => Option.noConfusion h
          | some q =>
            obtain ⟨rvs2, st2⟩ := q
            intro h
            injection h with h1
            have hst' : st' = st2 := (congrArg Prod.snd h1).symm
            rw [hst']
            exact ExtendsP_trans
              (ihRD st fid own v .after rv1 st1
                (fun g hg => hv g (hg ▸ List.mem_cons_self _ _)) hd)
              (ihRDL st1 fid own rest rvs2 st2
                (fun g hg => hv g (List.mem_cons_of_mem _ hg)) hl)
    have hRP : ∀ st fid iid v rv st',
        (∀ g, g ∈ entryFixtureRefs v → dependsOn env fid g) →
        resolveProp env (fuel + 1) st fid iid v = some (rv, st') →
        ExtendsP env st st' := by
      intro st fid iid v rv st' hv h
      cases v with
      | fx g =>
        exact ihRD st fid (some iid) (.fx g) .before rv st'
          (fun g2 hg2 => by
            injection hg2 with hg3
            exact hv g2 (by simp [entryFixtureRefs, hg3])) h
      | arr vs =>
        by_cases hall : vs.all RVal.isFixture = true
        · revert h
          show (if vs.all RVal.isFixture then
              match resolveDepList env fuel st fid (some iid) vs with
              | none => none
              | some (rvs, st1) => some (RVal.arr rvs, st1)
            else some (RVal.arr vs, st)) = some (rv, st') → _
          rw [if_pos hall]
          cases hl : resolveDepList env fuel st fid (some iid) vs with
          | none => exact fun h => Option.noConfusion h
          | some q =>
            obtain ⟨rvs1, st1⟩ := q
            intro h
            injection h with h1
            have hst' : st' = st1 := (congrArg Prod.snd h1).symm
            rw [hst']
            exact ihRDL st fid (some iid) vs rvs1 st1
              (fun g hg => hv g (mem_entryFixtureRefs_arr hall hg)) hl
        · revert h
          show (if vs.all RVal.isFixture then
              match resolveDepList env fuel st fid (some iid) vs with
              | none => none
              | some (rvs, st1) => some (RVal.arr rvs, st1)
            else some (RVal.arr vs, st)) = some (rv, st') → _
          rw [if_neg hall]
          intro h
          obtain ⟨h1, h2⟩ := some_pair_eq h
          subst h2
          exact ExtendsP_refl env st
      | fn fnid =>
        obtain ⟨h1, h2⟩ := some_pair_eq h
        subst h2
        exact ExtendsP_refl env st
      | thunkRef r =>
        obtain ⟨h1, h2⟩ := some_pair_eq h
        subst h2
        exact ExtendsP_refl env st
      | prim n =>
        obtain ⟨h1, h2⟩ := some_pair_eq h
        subst h2
        exact ExtendsP_refl env st
      | nullV =>
        obtain ⟨h1, h2⟩ := some_pair_eq h
        subst h2
        exact ExtendsP_refl env st
      | undefV =>
        obtain ⟨h1, h2⟩ := some_pair_eq h
        subst h2
        exact ExtendsP_refl env st
      | ref i =>
        obtain ⟨h1, h2⟩ := some_pair_eq h
        subst h2
        exact ExtendsP_refl env st
    have hIE : ∀ st fid iid es st',
        (∀ kv, kv ∈ es → ∀ g, g ∈ entryFixtureRefs kv.2 → dependsOn env fid g) →
        initEntries env (fuel + 1) st fid iid es = some st' →
        ExtendsP env st st' := by
      intro st fid iid es st' hv h
      cases es with
      | nil =>
        injection h with h1
        subst h1
        exact ExtendsP_refl env st
      | cons kv rest =>
        obtain ⟨key, value⟩ := kv
        revert h
        show (match resolveProp env fuel st fid iid value with
          | none => none
          | some (rv, st1) =>
            initEntries env fuel
              (heapModify st1 iid fun inst => assignProp inst key (.data rv))
              fid iid rest) = some st' → _
        cases hr : resolveProp env fuel st fid iid value with
        | none => exact fun h => Option.noConfusion h
        | some p =>
          obtain ⟨rv, st1⟩ := p
          intro h
          refine ExtendsP_trans
            (ihRP st fid iid value rv st1
              (fun g hg => hv (key, value) (List.mem_cons_self _ _) g hg) hr)
            (ExtendsP_trans (ExtendsP_heapModify env st1 iid _)
              (ihIE _ fid iid rest st'
                (fun kv2 hkv2 g hg => hv kv2 (List.mem_cons_of_mem _ hkv2) g hg) h))
    have hIF : ∀ st fid iid own st',
        initFixture env (fuel + 1) st fid iid own = some st' →
        ExtendsP env st st' := by
      intro st fid iid own st' h
      revert h
      show (match (env.fixtures fid).init with
        | none => some st
        | some i =>
          match i with
          | .record es => initEntries env fuel st fid iid es
          | .fn f => initEntries env fuel st fid iid (f own)) = some st' → _
      cases hinit : (env.fixtures fid).init with
      | none =>
        intro h
        injection h with h1
        subst h1
        exact ExtendsP_refl env st
      | some i =>
        cases i with
        | record es =>
          intro h
          refine ihIE st fid iid es st' (fun kv hkv g hg => ?_) h
          exact ⟨own, kv, by simp [initEntriesOf, hinit, hkv], hg⟩
        | fn f =>
          intro h
          refine ihIE st fid iid (f own) st' (fun kv hkv g hg => ?_) h
          exact ⟨own, kv, by simp [initEntriesOf, hinit, hkv], hg⟩
    have hB : ∀ st fid own iid st',
        buildFixtureInstance env (fuel + 1) st fid own = some (iid, st') →
        ExtendsP env st st' := by
      intro st fid own iid st' h
      rcases hbor : buildOrReuseInstance env st fid with ⟨i0, st1⟩
      revert h
      show (match buildOrReuseInstance env st fid with
        | (iid, st1) =>
          match initFixture env fuel st1 fid iid own with
          | none => none
          | some st2 => some (iid, fixturize env st2 fid iid)) =
          some (iid, st') → _
      rw [hbor]
      show (match initFixture env fuel st1 fid i0 own with
        | none => none
        | some st2 => some (i0, fixturize env st2 fid i0)) = some (iid, st') → _
      cases hif : initFixture env fuel st1 fid i0 own with
      | none => exact fun h => Option.noConfusion h
      | some st2 =>
        intro h
        injection h with h1
        have hst' : st' = fixturize env st2 fid i0 := (congrArg Prod.snd h1).symm
        subst hst'
        have hext1 : ExtendsP env st st1 := by
          have := ExtendsP_buildOrReuse env st fid
          rw [hbor] at this
          exact this
        exact ExtendsP_trans hext1
          (ExtendsP_trans (ihIF st1 fid i0 own st2 hif)
            (ExtendsP_fixturize env st2 fid i0))
    exact ⟨hB, hIF, hIE, hRP, hRDL, hRD⟩

/-- C10: the installed save operation ignores the `includeDependencies`
parameter declared by `FixtureCommon.save`: for every argument value
(including `some false`) it behaves identically, and it always runs the full
dependency-saving procedure of the fixture. -/
theorem C10_save_ignores_flag (env : Env) (fuel : Nat) (st : ProviderState)
    (fid : Nat) (iid : Nat) :
    (∀ b1 b2 : Option Bool,
      installedSave env fuel st fid iid b1 = installedSave env fuel st fid iid b2) ∧
    (∀ b : Option Bool,
      installedSave env fuel st fid iid b = saveFixtureInstance env fuel st fid iid) ∧
    (∀ b : Option Bool,
      installedSave env fuel st fid iid b = specSaveFixtureInstance env fuel st fid iid) :=
  ⟨fun _ _ => rfl, fun _ => rfl, fun _ => (save_eq_spec env fuel).1 st fid iid⟩

/-! ## C3: memoization of built instances -/

/-- After a successful build, the provider's `instances` table memoizes the
built instance for the fixture. -/
theorem build_sets_memo (env : Env) (fuel : Nat) (st : ProviderState)
    (fid : Nat) (own : Option Nat) (iid : Nat) (st' : ProviderState)
    (h : buildFixtureInstance env fuel st fid own = some (iid, st')) :
    mapGet st'.instances fid = some iid := by
  cases fuel with
  | zero => exact Option.noConfusion h
  | succ fuel =>
    rcases hbor : buildOrReuseInstance env st fid with ⟨i0, st1⟩
    have hmemo1 : mapGet st1.instances fid = some i0 := by
      have hm := buildOrReuse_memo env st fid
      rw [hbor] at hm
      exact hm
    revert h
    show (match buildOrReuseInstance env st fid with
      | (iid, st1) =>
        match initFixture env fuel st1 fid iid own with
        | none => none
        | some st2 => some (iid, fixturize env st2 fid iid)) = some (iid, st') → _
    rw [hbor]
    show (match initFixture env fuel st1 fid i0 own with
      | none => none
      | some st2 => some (i0, fixturize env st2 fid i0)) = some (iid, st') → _
    cases hif : initFixture env fuel st1 fid i0 own with
    | none => exact fun h => Option.noConfusion h
    | some st2 =>
      intro h
      obtain ⟨h1, h2⟩ := some_pair_eq h
      subst h2
      have hext := ((buildCluster_extends env fuel).2.1) st1 fid i0 own st2 hif
      have hm2 : mapGet st2.instances fid = some i0 := hext.1 fid i0 hmemo1
      rw [show (fixturize env st2 fid i0).instances = st2.instances from rfl]
      rw [hm2, h1]

/-- C3: building the same fixture twice without an intervening `reset` yields
the identical in-memory instance object: `buildOrReuseInstance` creates a
fresh entity via the repository and applies the schema defaults exactly when
the fixture has no memoized instance, on a memoized fixture it returns the
memoized instance with the state untouched, and a second
`buildFixtureInstance` returns the same instance id as the first. -/
theorem C3_build_memoizes (env : Env) (st : ProviderState) (fid : Nat) :
    (∀ iid, mapGet st.instances fid = some iid →
      buildOrReuseInstance env st fid = (iid, st)) ∧
    (mapGet st.instances fid = none →
      buildOrReuseInstance env st fid =
        (st.nextId,
          { st with
            nextId := st.nextId + 1,
            heap := mapSet st.heap st.nextId
              (applyDefaults env (env.fixtures fid).Entity repositoryCreate),
            instances := mapSet st.instances fid st.nextId })) ∧
    (∀ fuel1 own1 i1 st1 fuel2 own2 i2 st2,
      buildFixtureInstance env fuel1 st fid own1 = some (i1, st1) →
      buildFixtureInstance env fuel2 st1 fid own2 = some (i2, st2) →
      i2 = i1) := by
  refine ⟨fun iid h => buildOrReuse_hit env st fid iid h,
          fun h => buildOrReuse_miss env st fid h, ?_⟩
  intro fuel1 own1 i1 st1 fuel2 own2 i2 st2 h1 h2
  have hmemo : mapGet st1.instances fid = some i1 :=
    build_sets_memo env fuel1 st fid own1 i1 st1 h1
  cases fuel2 with
  | zero => exact Option.noConfusion h2
  | succ fuel2 =>
    revert h2
    show (match buildOrReuseInstance env st1 fid with
      | (iid, stx) =>
        match initFixture env fuel2 stx fid iid own2 with
        | none => none
        | some sty => some (iid, fixturize env sty fid iid)) = some (i2, st2) → _
    rw [buildOrReuse_hit env st1 fid i1 hmemo]
    show (match initFixture env fuel2 st1 fid i1 own2 with
      | none => none
      | some sty => some (i1, fixturize env sty fid i1)) = some (i2, st2) → _
    cases hif : initFixture env fuel2 st1 fid i1 own2 with
    | none => exact fun h => Option.noConfusion h
    | some sty =>
      intro h2
      exact ((some_pair_eq h2).1).symm

/-- Witness for C3: two successive builds of `sampleEnv`'s fixture `0`
return the same instance id. -/
theorem C3_witness :
    ∃ i1 st1 i2 st2,
      buildFixtureInstance sampleEnv 12 ProviderState.empty 0 none = some (i1, st1) ∧
      buildFixtureInstance sampleEnv 12 st1 0 none = some (i2, st2) ∧
      i2 = i1 := by
  refine ⟨0, _, 0, _, rfl, rfl, ?_⟩
  exact (C3_build_memoizes sampleEnv .empty 0).2.2 12 none 0 _ 12 none 0 _ rfl rfl

/-! ## C7: the dependency-table invariant -/

/-- The entry `addDependency` pushes is always well formed. -/
theorem addDependency_entry_wf (fixture : Option Nat) (v : RVal) (so : SaveOrder) :
    DepWF { fixture := fixture,
            inst := if v.isFunction then .direct v else .wrapped v,
            saveOrder := so } := by
  refine ⟨?_, ?_⟩
  · cases so
    · exact Or.inl rfl
    · exact Or.inr rfl
  · by_cases hv : v.isFunction = true
    · exact Or.inr ⟨v, by simp [hv], hv⟩
    · exact Or.inl ⟨v, by simp [hv], by simpa using hv⟩

/-- A value is a fixture exactly when it is an `fx`. -/
theorem isFixture_iff (v : RVal) : v.isFixture = true ↔ ∃ g, v = RVal.fx g := by
  cases v <;> simp [RVal.isFixture]

/-- `resolveDependency` on a non-fixture value registers the value as-is. -/
theorem resolveDependency_not_fx (env : Env) (fuel : Nat) (st : ProviderState)
    (f : Nat) (own : Option Nat) (v : RVal) (so : SaveOrder)
    (hv : v.isFixture = false) :
    resolveDependency env (fuel + 1) st f own v so =
      some (v, addDependency st f none v so) := by
  cases v
  · exact absurd hv (by simp [RVal.isFixture])
  all_goals rfl

/-- Tables other than the heap are untouched by the save walk: saving
changes no dependency entry and no memoized instance. -/
theorem saveCluster_tables (env : Env) : ∀ fuel : Nat,
    (∀ st fid iid ev st',
      saveFixtureInstance env fuel st fid iid = some (ev, st') →
      st'.dependencies = st.dependencies ∧ st'.instances = st.instances) ∧
    (∀ st ds ev st',
      saveDeps env fuel st ds = some (ev, st') →
      st'.dependencies = st.dependencies ∧ st'.instances = st.instances) := by
  intro fuel
  induction fuel with
  | zero =>
    exact ⟨fun _ _ _ _ _ h => Option.noConfusion h,
           fun _ _ _ _ h => Option.noConfusion h⟩
  | succ fuel ih =>
    obtain ⟨ihS, ihD⟩ := ih
    constructor
    · intro st fid iid ev st' h
      revert h
      show (match saveDeps env fuel st
          ((depsOf st fid).filter Dependency.isBefore) with
        | none => none
        | some (evB, st1) =>
          match saveDeps env fuel
              (heapModify st1 iid fun inst =>
                (env.savedFields (env.fixtures fid).Entity).foldl
                  (fun i kv => assignProp i kv.1 (PropVal.data kv.2)) inst)
              ((depsOf st fid).filter Dependency.isAfter) with
          | none => none
          | some (evA, st3) =>
            some (evB ++ [SaveEvent.repoSave (env.fixtures fid).Entity iid] ++ evA,
              st3)) = some (ev, st') → _
      cases hB : saveDeps env fuel st ((depsOf st fid).filter Dependency.isBefore) with
      | none => exact fun h => Option.noConfusion h
      | some p =>
        obtain ⟨evB, st1⟩ := p
        show (match saveDeps env fuel
            (heapModify st1 iid fun inst =>
              (env.savedFields (env.fixtures fid).Entity).foldl
                (fun i kv => assignProp i kv.1 (PropVal.data kv.2)) inst)
            ((depsOf st fid).filter Dependency.isAfter) with
          | none => none
          | some (evA, st3) =>
            some (evB ++ [SaveEvent.repoSave (env.fixtures fid).Entity iid] ++ evA,
              st3)) = some (ev, st') → _
        cases hA : saveDeps env fuel
            (heapModify st1 iid fun inst =>
              (env.savedFields (env.fixtures fid).Entity).foldl
                (fun i kv => assignProp i kv.1 (PropVal.data kv.2)) inst)
            ((depsOf st fid).filter Dependency.isAfter) with
        | none => exact fun h => Option.noConfusion h
        | some q =>
          obtain ⟨evA, st3⟩ := q
          intro h
          obtain ⟨h1, h2⟩ := some_pair_eq h
          subst h2
          obtain ⟨hd1, hi1⟩ := ihD st _ evB st1 hB
          obtain ⟨hd3, hi3⟩ := ihD _ _ evA st3 hA
          constructor
          · rw [hd3]
            exact hd1
          · rw [hi3]
            exact hi1
    · intro st ds ev st' h
      cases ds with
      | nil =>
        obtain ⟨h1, h2⟩ := some_pair_eq h
        subst h2
        exact ⟨rfl, rfl⟩
      | cons d rest =>
        revert h
        show (match d.fixture with
          | some g =>
            match saveFixtureInstance env fuel st g ((d.inst.call env).refId) with
            | none => none
            | some (ev1, st1) =>
              match saveDeps env fuel st1 rest with
              | none => none
              | some (ev2, st2) => some (ev1 ++ ev2, st2)
          | none =>
            match saveDeps env fuel st rest with
            | none => none
            | some (ev2, st2) =>
              some (SaveEvent.emSave (d.inst.call env) :: ev2, st2)) = some (ev, st') → _
        cases hf : d.fixture with
        | some g =>
          show (match saveFixtureInstance env fuel st g ((d.inst.call env).refId) with
            | none => none
            | some (ev1, st1) =>
              match saveDeps env fuel st1 rest with
              | none => none
              | some (ev2, st2) => some (ev1 ++ ev2, st2)) = some (ev, st') → _
          cases hS : saveFixtureInstance env fuel st g ((d.inst.call env).refId) with
          | none => exact fun h => Option.noConfusion h
          | some p =>
            obtain ⟨ev1, st1⟩ := p
            show (match saveDeps env fuel st1 rest with
              | none => none
              | some (ev2, st2) => some (ev1 ++ ev2, st2)) = some (ev, st') → _
            cases hR : saveDeps env fuel st1 rest with
            | none => exact fun h => Option.noConfusion h
            | some q =>
              obtain ⟨ev2, st2⟩ := q
              intro h
              obtain ⟨h1, h2⟩ := some_pair_eq h
              subst h2
              obtain ⟨hdS, hiS⟩ := ihS st g _ ev1 st1 hS
              obtain ⟨hdR, hiR⟩ := ihD st1 rest ev2 st2 hR
              exact ⟨hdR.trans hdS, hiR.trans hiS⟩
        | none =>
          show (match saveDeps env fuel st rest with
            | none => none
            | some (ev2, st2) =>
              some (SaveEvent.emSave (d.inst.call env) :: ev2, st2)) = some (ev, st') → _
          cases hR : saveDeps env fuel st rest with
          | none => exact fun h => Option.noConfusion h
          | some q =>
            obtain ⟨ev2, st2⟩ := q
            intro h
            obtain ⟨h1, h2⟩ := some_pair_eq h
            subst h2
            exact ihD st rest ev2 st2 hR

/-- C7: every entry ever stored in the dependencies table has a `saveOrder`
that is `'before'` or `'after'`, an accessor that is a thunk, and a fixture
field that is non-null exactly when the dependency was registered from a
fixture template; the build walk preserves well-formedness of the whole
table and the save walk never changes it; at save time a non-null fixture
field routes through the recursive fixture save and a null one directly
through the entity manager. -/
theorem C7_dependency_invariant (env : Env) :
    (∀ fuel st f own v so rv st',
      resolveDependency env fuel st f own v so = some (rv, st') →
      ∃ dnew rest, depsOf st' f = rest ++ [dnew] ∧
        dnew.saveOrder = so ∧ DepWF dnew ∧
        (∀ g, v = RVal.fx g → dnew.fixture = some g) ∧
        ((∃ g, v = RVal.fx g) ↔ dnew.fixture ≠ none)) ∧
    (∀ fuel st fid own iid st',
      (∀ owner d, d ∈ depsOf st owner → DepWF d) →
      buildFixtureInstance env fuel st fid own = some (iid, st') →
      ∀ owner d, d ∈ depsOf st' owner → DepWF d) ∧
    (∀ fuel st fid iid ev st',
      saveFixtureInstance env fuel st fid iid = some (ev, st') →
      st'.dependencies = st.dependencies) ∧
    (∀ fuel st d rest g, d.fixture = some g →
      saveDeps env (fuel + 1) st (d :: rest) =
        (match saveFixtureInstance env fuel st g ((d.inst.call env).refId) with
         | none => none
         | some (ev1, st1) =>
           match saveDeps env fuel st1 rest with
           | none => none
           | some (ev2, st2) => some (ev1 ++ ev2, st2))) ∧
    (∀ fuel st d rest, d.fixture = none →
      saveDeps env (fuel + 1) st (d :: rest) =
        (match saveDeps env fuel st rest with
         | none => none
         | some (ev2, st2) => some (SaveEvent.emSave (d.inst.call env) :: ev2, st2))) := by
  refine ⟨?_, ?_, ?_, ?_, ?_⟩
  · intro fuel st f own v so rv st' h
    cases fuel with
    | zero => exact Option.noConfusion h
    | succ fuel =>
      by_cases hfx : v.isFixture = true
      · obtain ⟨g, rfl⟩ := (isFixture_iff v).mp hfx
        revert h
        show (match buildFixtureInstance env fuel st g own with
          | none => none
          | some (iid, st1) =>
            some (RVal.ref iid, addDependency st1 f (some g) (.ref iid) so)) =
            some (rv, st') → _
        cases hb : buildFixtureInstance env fuel st g own with
        | none => exact fun h => Option.noConfusion h
        | some p =>
          obtain ⟨bid, st1⟩ := p
          intro h
          obtain ⟨h1, h2⟩ := some_pair_eq h
          subst h2
          refine ⟨_, depsOf st1 f,
            depsOf_addDependency_self st1 f (some g) (.ref bid) so, rfl,
            addDependency_entry_wf (some g) (.ref bid) so, ?_, ?_⟩
          · intro g2 hg2
            injection hg2 with hg3
            rw [hg3]
          · constructor
            · intro _
              simp
            · intro _
              exact ⟨g, rfl⟩
      · have hveq := resolveDependency_not_fx env fuel st f own v so
          (by simpa using hfx)
        rw [hveq] at h
        obtain ⟨h1, h2⟩ := some_pair_eq h
        subst h2
        refine ⟨_, depsOf st f, depsOf_addDependency_self st f none v so, rfl,
          addDependency_entry_wf none v so, ?_, ?_⟩
        · intro g hg
          rw [hg] at hfx
          exact absurd (rfl : (RVal.fx g).isFixture = true) hfx
        · constructor
          · rintro ⟨g, rfl⟩
            exact absurd (rfl : (RVal.fx g).isFixture = true) hfx
          · intro hne
            exact absurd rfl hne
  · intro fuel st fid own iid st' hWF h owner d hd
    have hext := (buildCluster_extends env fuel).1 st fid own iid st' h
    rcases hext.2 owner d hd with hold | hnew
    · exact hWF owner d hold
    · exact hnew.1
  · intro fuel st fid iid ev st' h
    exact ((saveCluster_tables env fuel).1 st fid iid ev st' h).1
  · intro fuel st d rest g hf
    show (match d.fixture with
      | some g =>
        match saveFixtureInstance env fuel st g ((d.inst.call env).refId) with
        | none => none
        | some (ev1, st1) =>
          match saveDeps env fuel st1 rest with
          | none => none
          | some (ev2, st2) => some (ev1 ++ ev2, st2)
      | none =>
        match saveDeps env fuel st rest with
        | none => none
        | some (ev2, st2) =>
          some (SaveEvent.emSave (d.inst.call env) :: ev2, st2)) = _
    rw [hf]
  · intro fuel st d rest hf
    show (match d.fixture with
      | some g =>
        match saveFixtureInstance env fuel st g ((d.inst.call env).refId) with
        | none => none
        | some (ev1, st1) =>
          match saveDeps env fuel st1 rest with
          | none => none
          | some (ev2, st2) => some (ev1 ++ ev2, st2)
      | none =>
        match saveDeps env fuel st rest with
        | none => none
        | some (ev2, st2) =>
          some (SaveEvent.emSave (d.inst.call env) :: ev2, st2)) = _
    rw [hf]

/-- Witness for C7: registering a plain (non-fixture) value appends a
well-formed entry whose fixture field is null. -/
theorem C7_witness :
    ∃ dnew rest,
      depsOf (addDependency ProviderState.empty 0 none (.prim 7) .before) 0 =
        rest ++ [dnew] ∧
      dnew.saveOrder = .before ∧ DepWF dnew ∧ dnew.fixture = none := by
  obtain ⟨dnew, rest, h1, h2, h3, _, h5⟩ :=
    (C7_dependency_invariant sampleEnv).1 1 .empty 0 (some 0) (.prim 7) .before
      (.prim 7) (addDependency ProviderState.empty 0 none (.prim 7) .before) rfl
  refine ⟨dnew, rest, h1, h2, h3, ?_⟩
  cases hf : dnew.fixture with
  | none => rfl
  | some g =>
    exact absurd (h5.mpr (by simp [hf])) (by rintro ⟨g2, hg2⟩; exact RVal.noConfusion hg2)

/-! ## C4: termination under an acyclic dependency relation -/

/-- Success of the build cluster is monotone in the fuel, with the same
result. -/
theorem buildCluster_mono (env : Env) : ∀ fuel : Nat,
    (∀ st fid own r, buildFixtureInstance env fuel st fid own = some r →
      ∀ fuel2, fuel ≤ fuel2 → buildFixtureInstance env fuel2 st fid own = some r) ∧
    (∀ st fid iid own st', initFixture env fuel st fid iid own = some st' →
      ∀ fuel2, fuel ≤ fuel2 → initFixture env fuel2 st fid iid own = some st') ∧
    (∀ st fid iid es st', initEntries env fuel st fid iid es = some st' →
      ∀ fuel2, fuel ≤ fuel2 → initEntries env fuel2 st fid iid es = some st') ∧
    (∀ st fid iid v r, resolveProp env fuel st fid iid v = some r →
      ∀ fuel2, fuel ≤ fuel2 → resolveProp env fuel2 st fid iid v = some r) ∧
    (∀ st fid own vs r, resolveDepList env fuel st fid own vs = some r →
      ∀ fuel2, fuel ≤ fuel2 → resolveDepList env fuel2 st fid own vs = some r) ∧
    (∀ st fid own v so r, resolveDependency env fuel st fid own v so = some r →
      ∀ fuel2, fuel ≤ fuel2 → resolveDependency env fuel2 st fid own v so = some r) := by
  intro fuel
  induction fuel with
  | zero =>
    exact ⟨fun _ _ _ _ h => Option.noConfusion h,
           fun _ _ _ _ _ h => Option.noConfusion h,
           fun _ _ _ _ _ h => Option.noConfusion h,
           fun _ _ _ _ _ h => Option.noConfusion h,
           fun _ _ _ _ _ h => Option.noConfusion h,
           fun _ _ _ _ _ _ h => Option.noConfusion h⟩
  | succ fuel ih =>
    obtain ⟨ihB, ihIF, ihIE, ihRP, ihRDL, ihRD⟩ := ih
    have hRD : ∀ st fid own v so r,
        resolveDependency env (fuel + 1) st fid own v so = some r →
        ∀ fuel2, fuel + 1 ≤ fuel2 →
        resolveDependency env fuel2 st fid own v so = some r := by
      intro st fid own v so r h fuel2 hle
      cases fuel2 with
      | zero => omega
      | succ fuel2 =>
        have hle' : fuel ≤ fuel2 := by omega
        by_cases hfx : v.isFixture = true
        · obtain ⟨g, rfl⟩ := (isFixture_iff v).mp hfx
          revert h
          show (match buildFixtureInstance env fuel st g own with
            | none => none
            | some (iid, st1) =>
              some (RVal.ref iid, addDependency st1 fid (some g) (.ref iid) so)) =
              some r → _
          cases hb : buildFixtureInstance env fuel st g own with
          | none => exact fun h => Option.noConfusion h
          | some p =>
            intro h
            show (match buildFixtureInstance env fuel2 st g own with
              | none => none
              | some (iid, st1) =>
                some (RVal.ref iid, addDependency st1 fid (some g) (.ref iid) so)) =
                some r
            rw [ihB st g own p hb fuel2 hle']
            exact h
        · rw [resolveDependency_not_fx env fuel st fid own v so
            (by simpa using hfx)] at h
          rw [resolveDependency_not_fx env fuel2 st fid own v so
            (by simpa using hfx)]
          exact h
    have hRDL : ∀ st fid own vs r,
        resolveDepList env (fuel + 1) st fid own vs = some r →
        ∀ fuel2, fuel + 1 ≤ fuel2 →
        resolveDepList env fuel2 st fid own vs = some r := by
      intro st fid own vs r h fuel2 hle
      cases fuel2 with
      | zero => omega
      | succ fuel2 =>
        have hle' : fuel ≤ fuel2 := by omega
        cases vs with
        | nil => exact h
        | cons v rest =>
          revert h
          show (match resolveDependency env fuel st fid own v .after with
            | none => none
            | some (rv, st1) =>
              match resolveDepList env fuel st1 fid own rest with
              | none => none
              | some (rvs2, st2) => some (rv :: rvs2, st2)) = some r → _
          cases hd : resolveDependency env fuel st fid own v .after with
          | none => exact fun h => Option.noConfusion h
          | some p =>
            obtain ⟨rv1, st1⟩ := p
            show (match resolveDepList env fuel st1 fid own rest with
              | none => none
              | some (rvs2, st2) => some (rv1 :: rvs2, st2)) = some r → _
            cases hl : resolveDepList env fuel st1 fid own rest with
            | none => exact fun h => Option.noConfusion h
            | some q =>
              intro h
              show (match resolveDependency env fuel2 st fid own v .after with
                | none => none
                | some (rv, st1) =>
                  match resolveDepList env fuel2 st1 fid own rest with
                  | none => none
                  | some (rvs2, st2) => some (rv :: rvs2, st2)) = some r
              rw [ihRD st fid own v .after (rv1, st1) hd fuel2 hle']
              show (match resolveDepList env fuel2 st1 fid own rest with
                | none => none
                | some (rvs2, st2) => some (rv1 :: rvs2, st2)) = some r
              rw [ihRDL st1 fid own rest q hl fuel2 hle']
              exact h
    have hRP : ∀ st fid iid v r,
        resolveProp env (fuel + 1) st fid iid v = some r →
        ∀ fuel2, fuel + 1 ≤ fuel2 →
        resolveProp env fuel2 st fid iid v = some r := by
      intro st fid iid v r h fuel2 hle
      cases fuel2 with
      | zero => omega
      | succ fuel2 =>
        have hle' : fuel ≤ fuel2 := by omega
        cases v with
        | fx g =>
          show resolveDependency env fuel2 st fid (some iid) (.fx g) .before = some r
          exact ihRD st fid (some iid) (.fx g) .before r h fuel2 hle'
        | arr vs =>
          by_cases hall : vs.all RVal.isFixture = true
          · revert h
            show (if vs.all RVal.isFixture then
                match resolveDepList env fuel st fid (some iid) vs with
                | none => none
                | some (rvs, st1) => some (RVal.arr rvs, st1)
              else some (RVal.arr vs, st)) = some r → _
            rw [if_pos hall]
            cases hl : resolveDepList env fuel st fid (some iid) vs with
            | none => exact fun h => Option.noConfusion h
            | some q =>
              intro h
              show (if vs.all RVal.isFixture then
                  match resolveDepList env fuel2 st fid (some iid) vs with
                  | none => none
                  | some (rvs, st1) => some (RVal.arr rvs, st1)
                else some (RVal.arr vs, st)) = some r
              rw [if_pos hall, ihRDL st fid (some iid) vs q hl fuel2 hle']
              exact h
          · revert h
            show (if vs.all RVal.isFixture then
                match resolveDepList env fuel st fid (some iid) vs with
                | none => none
                | some (rvs, st1) => some (RVal.arr rvs, st1)
              else some (RVal.arr vs, st)) = some r → _
            rw [if_neg hall]
            intro h
            show (if vs.all RVal.isFixture then
                match resolveDepList env fuel2 st fid (some iid) vs with
                | none => none
                | some (rvs, st1) => some (RVal.arr rvs, st1)
              else some (RVal.arr vs, st)) = some r
            rw [if_neg hall]
            exact h
        | fn fnid => exact h
        | thunkRef rr => exact h
        | prim n => exact h
        | nullV => exact h
        | undefV => exact h
        | ref i => exact h
    have hIE : ∀ st fid iid es st',
        initEntries env (fuel + 1) st fid iid es = some st' →
        ∀ fuel2, fuel + 1 ≤ fuel2 →
        initEntries env fuel2 st fid iid es = some st' := by
      intro st fid iid es st' h fuel2 hle
      cases fuel2 with
      | zero => omega
      | succ fuel2 =>
        have hle' : fuel ≤ fuel2 := by omega
        cases es with
        | nil => exact h
        | cons kv rest =>
          obtain ⟨key, value⟩ := kv
          revert h
          show (match resolveProp env fuel st fid iid value with
            | none => none
            | some (rv, st1) =>
              initEntries env fuel
                (heapModify st1 iid fun inst => assignProp inst key (.data rv))
                fid iid rest) = some st' → _
          cases hr : resolveProp env fuel st fid iid value with
          | none => exact fun h => Option.noConfusion h
          | some p =>
            obtain ⟨rv, st1⟩ := p
            intro h
            show (match resolveProp env fuel2 st fid iid value with
              | none => none
              | some (rv, st1) =>
                initEntries env fuel2
                  (heapModify st1 iid fun inst => assignProp inst key (.data rv))
                  fid iid rest) = some st'
            rw [ihRP st fid iid value (rv, st1) hr fuel2 hle']
            exact ihIE _ fid iid rest st' h fuel2 hle'
    have hIF : ∀ st fid iid own st',
        initFixture env (fuel + 1) st fid iid own = some st' →
        ∀ fuel2, fuel + 1 ≤ fuel2 →
        initFixture env fuel2 st fid iid own = some st' := by
      intro st fid iid own st' h fuel2 hle
      cases fuel2 with
      | zero => omega
      | succ fuel2 =>
        have hle' : fuel ≤ fuel2 := by omega
        revert h
        show (match (env.fixtures fid).init with
          | none => some st
          | some i =>
            match i with
            | .record es => initEntries env fuel st fid iid es
            | .fn f => initEntries env fuel st fid iid (f own)) = some st' → _
        cases hinit : (env.fixtures fid).init with
        | none =>
          intro h
          show (match (env.fixtures fid).init with
            | none => some st
            | some i =>
              match i with
              | .record es => initEntries env fuel2 st fid iid es
              | .fn f => initEntries env fuel2 st fid iid (f own)) = some st'
          rw [hinit]
          exact h
        | some i =>
          cases i with
          | record es =>
            intro h
            show (match (env.fixtures fid).init with
              | none => some st
              | some i =>
                match i with
                | .record es => initEntries env fuel2 st fid iid es
                | .fn f => initEntries env fuel2 st fid iid (f own)) = some st'
            rw [hinit]
            exact ihIE st fid iid es st' h fuel2 hle'
          | fn fI =>
            intro h
            show (match (env.fixtures fid).init with
              | none => some st
              | some i =>
                match i with
                | .record es => initEntries env fuel2 st fid iid es
                | .fn f => initEntries env fuel2 st fid iid (f own)) = some st'
            rw [hinit]
            exact ihIE st fid iid (fI own) st' h fuel2 hle'
    have hB : ∀ st fid own r,
        buildFixtureInstance env (fuel + 1) st fid own = some r →
        ∀ fuel2, fuel + 1 ≤ fuel2 →
        buildFixtureInstance env fuel2 st fid own = some r := by
      intro st fid own r h fuel2 hle
      cases fuel2 with
      | zero => omega
      | succ fuel2 =>
        have hle' : fuel ≤ fuel2 := by omega
        rcases hbor : buildOrReuseInstance env st fid with ⟨i0, st1⟩
        revert h
        show (match buildOrReuseInstance env st fid with
          | (iid, st1) =>
            match initFixture env fuel st1 fid iid own with
            | none => none
            | some st2 => some (iid, fixturize env st2 fid iid)) = some r → _
        rw [hbor]
        show (match initFixture env fuel st1 fid i0 own with
          | none => none
          | some st2 => some (i0, fixturize env st2 fid i0)) = some r → _
        cases hif : initFixture env fuel st1 fid i0 own with
        | none => exact fun h => Option.noConfusion h
        | some st2 =>
          intro h
          show (match buildOrReuseInstance env st fid with
            | (iid, st1) =>
              match initFixture env fuel2 st1 fid iid own with
              | none => none
              | some st2 => some (iid, fixturize env st2 fid iid)) = some r
          rw [hbor]
          show (match initFixture env fuel2 st1 fid i0 own with
            | none => none
            | some st2 => some (i0, fixturize env st2 fid i0)) = some r
          rw [ihIF st1 fid i0 own st2 hif fuel2 hle']
          exact h
    have hB' : ∀ st fid own r,
        buildFixtureInstance env (fuel + 1) st fid own = some r →
        ∀ fuel2, fuel + 1 ≤ fuel2 →
        buildFixtureInstance env fuel2 st fid own = some r := hB
    exact ⟨hB', hIF, hIE, hRP, hRDL, hRD⟩

/-- Success of the save cluster is monotone in the fuel, with the same
result. -/
theorem saveCluster_mono (env : Env) : ∀ fuel : Nat,
    (∀ st fid iid r, saveFixtureInstance env fuel st fid iid = some r →
      ∀ fuel2, fuel ≤ fuel2 → saveFixtureInstance env fuel2 st fid iid = some r) ∧
    (∀ st ds r, saveDeps env fuel st ds = some r →
      ∀ fuel2, fuel ≤ fuel2 → saveDeps env fuel2 st ds = some r) := by
  intro fuel
  induction fuel with
  | zero =>
    exact ⟨fun _ _ _ _ h => Option.noConfusion h,
           fun _ _ _ h => Option.noConfusion h⟩
  | succ fuel ih =>
    obtain ⟨ihS, ihD⟩ := ih
    constructor
    · intro st fid iid r h fuel2 hle
      cases fuel2 with
      | zero => omega
      | succ fuel2 =>
        have hle' : fuel ≤ fuel2 := by omega
        revert h
        show (match saveDeps env fuel st
            ((depsOf st fid).filter Dependency.isBefore) with
          | none => none
          | some (evB, st1) =>
            match saveDeps env fuel
                (heapModify st1 iid fun inst =>
                  (env.savedFields (env.fixtures fid).Entity).foldl
                    (fun i kv => assignProp i kv.1 (PropVal.data kv.2)) inst)
                ((depsOf st fid).filter Dependency.isAfter) with
            | none => none
            | some (evA, st3) =>
              some (evB ++ [SaveEvent.repoSave (env.fixtures fid).Entity iid] ++ evA,
                st3)) = some r → _
        cases hB : saveDeps env fuel st
            ((depsOf st fid).filter Dependency.isBefore) with
        | none => exact fun h => Option.noConfusion h
        | some p =>
          obtain ⟨evB, st1⟩ := p
          show (match saveDeps env fuel
              (heapModify st1 iid fun inst =>
                (env.savedFields (env.fixtures fid).Entity).foldl
                  (fun i kv => assignProp i kv.1 (PropVal.data kv.2)) inst)
              ((depsOf st fid).filter Dependency.isAfter) with
            | none => none
            | some (evA, st3) =>
              some (evB ++ [SaveEvent.repoSave (env.fixtures fid).Entity iid] ++ evA,
                st3)) = some r → _
          cases hA : saveDeps env fuel
              (heapModify st1 iid fun inst =>
                (env.savedFields (env.fixtures fid).Entity).foldl
                  (fun i kv => assignProp i kv.1 (PropVal.data kv.2)) inst)
              ((depsOf st fid).filter Dependency.isAfter) with
          | none => exact fun h => Option.noConfusion h
          | some q =>
            intro h
            show (match saveDeps env fuel2 st
                ((depsOf st fid).filter Dependency.isBefore) with
              | none => none
              | some (evB, st1) =>
                match saveDeps env fuel2
                    (heapModify st1 iid fun inst =>
                      (env.savedFields (env.fixtures fid).Entity).foldl
                        (fun i kv => assignProp i kv.1 (PropVal.data kv.2)) inst)
                    ((depsOf st fid).filter Dependency.isAfter) with
                | none => none
                | some (evA, st3) =>
                  some (evB ++ [SaveEvent.repoSave (env.fixtures fid).Entity iid] ++
                    evA, st3)) = some r
            rw [ihD st _ (evB, st1) hB fuel2 hle']
            show (match saveDeps env fuel2
                (heapModify st1 iid fun inst =>
                  (env.savedFields (env.fixtures fid).Entity).foldl
                    (fun i kv => assignProp i kv.1 (PropVal.data kv.2)) inst)
                ((depsOf st fid).filter Dependency.isAfter) with
              | none => none
              | some (evA, st3) =>
                some (evB ++ [SaveEvent.repoSave (env.fixtures fid).Entity iid] ++
                  evA, st3)) = some r
            rw [ihD _ _ q hA fuel2 hle']
            exact h
    · intro st ds r h fuel2 hle
      cases fuel2 with
      | zero => omega
      | succ fuel2 =>
        have hle' : fuel ≤ fuel2 := by omega
        cases ds with
        | nil => exact h
        | cons d rest =>
          revert h
          show (match d.fixture with
            | some g =>
              match saveFixtureInstance env fuel st g ((d.inst.call env).refId) with
              | none => none
              | some (ev1, st1) =>
                match saveDeps env fuel st1 rest with
                | none => none
                | some (ev2, st2) => some (ev1 ++ ev2, st2)
            | none =>
              match saveDeps env fuel st rest with
              | none => none
              | some (ev2, st2) =>
                some (SaveEvent.emSave (d.inst.call env) :: ev2, st2)) = some r → _
          cases hf : d.fixture with
          | some g =>
            show (match saveFixtureInstance env fuel st g ((d.inst.call env).refId) with
              | none => none
              | some (ev1, st1) =>
                match saveDeps env fuel st1 rest with
                | none => none
                | some (ev2, st2) => some (ev1 ++ ev2, st2)) = some r → _
            cases hS : saveFixtureInstance env fuel st g ((d.inst.call env).refId) with
            | none => exact fun h => Option.noConfusion h
            | some p =>
              obtain ⟨ev1, st1⟩ := p
              show (match saveDeps env fuel st1 rest with
                | none => none
                | some (ev2, st2) => some (ev1 ++ ev2, st2)) = some r → _
              cases hR : saveDeps env fuel st1 rest with
              | none => exact fun h => Option.noConfusion h
              | some q =>
                intro h
                show (match d.fixture with
                  | some g =>
                    match saveFixtureInstance env fuel2 st g
                        ((d.inst.call env).refId) with
                    | none => none
                    | some (ev1, st1) =>
                      match saveDeps env fuel2 st1 rest with
                      | none => none
                      | some (ev2, st2) => some (ev1 ++ ev2, st2)
                  | none =>
                    match saveDeps env fuel2 st rest with
                    | none => none
                    | some (ev2, st2) =>
                      some (SaveEvent.emSave (d.inst.call env) :: ev2, st2)) = some r
                rw [hf]
                show (match saveFixtureInstance env fuel2 st g
                    ((d.inst.call env).refId) with
                  | none => none
                  | some (ev1, st1) =>
                    match saveDeps env fuel2 st1 rest with
                    | none => none
                    | some (ev2, st2) => some (ev1 ++ ev2, st2)) = some r
                rw [ihS st g _ (ev1, st1) hS fuel2 hle']
                show (match saveDeps env fuel2 st1 rest with
                  | none => none
                  | some (ev2, st2) => some (ev1 ++ ev2, st2)) = some r
                rw [ihD st1 rest q hR fuel2 hle']
                exact h
          | none =>
            show (match saveDeps env fuel st rest with
              | none => none
              | some (ev2, st2) =>
                some (SaveEvent.emSave (d.inst.call env) :: ev2, st2)) = some r → _
            cases hR : saveDeps env fuel st rest with
            | none => exact fun h => Option.noConfusion h
            | some q =>
              intro h
              show (match d.fixture with
                | some g =>
                  match saveFixtureInstance env fuel2 st g
                      ((d.inst.call env).refId) with
                  | none => none
                  | some (ev1, st1) =>
                    match saveDeps env fuel2 st1 rest with
                    | none => none
                    | some (ev2, st2) => some (ev1 ++ ev2, st2)
                | none =>
                  match saveDeps env fuel2 st rest with
                  | none => none
                  | some (ev2, st2) =>
                    some (SaveEvent.emSave (d.inst.call env) :: ev2, st2)) = some r
              rw [hf]
              show (match saveDeps env fuel2 st rest with
                | none => none
                | some (ev2, st2) =>
                  some (SaveEvent.emSave (d.inst.call env) :: ev2, st2)) = some r
              rw [ihD st rest q hR fuel2 hle']
              exact h

/-- `resolveDependency` succeeds with some fuel provided building the
referenced fixture (if any) succeeds with some fuel from every state. -/
theorem resolveDependency_succeeds (env : Env) (v : RVal)
    (hbuild : ∀ g, v = RVal.fx g → ∀ st own, ∃ fuel r,
      buildFixtureInstance env fuel st g own = some r) :
    ∀ st f own so, ∃ fuel r, resolveDependency env fuel st f own v so = some r := by
  intro st f own so
  by_cases hfx : v.isFixture = true
  · obtain ⟨g, rfl⟩ := (isFixture_iff v).mp hfx
    obtain ⟨fuel, r, hr⟩ := hbuild g rfl st own
    obtain ⟨bid, st1⟩ := r
    refine ⟨fuel + 1, (.ref bid, addDependency st1 f (some g) (.ref bid) so), ?_⟩
    show (match buildFixtureInstance env fuel st g own with
      | none => none
      | some (iid, st1) =>
        some (RVal.ref iid, addDependency st1 f (some g) (.ref iid) so)) = _
    rw [hr]
  · exact ⟨1, (v, addDependency st f none v so),
      resolveDependency_not_fx env 0 st f own v so (by simpa using hfx)⟩

/-- `resolveDepList` succeeds with some fuel provided every fixture element
builds with some fuel from every state. -/
theorem resolveDepList_succeeds (env : Env) (vs : List RVal)
    (hbuild : ∀ g, RVal.fx g ∈ vs → ∀ st own, ∃ fuel r,
      buildFixtureInstance env fuel st g own = some r) :
    ∀ st f own, ∃ fuel r, resolveDepList env fuel st f own vs = some r := by
  induction vs with
  | nil => exact fun st f own => ⟨1, ([], st), rfl⟩
  | cons v rest ih =>
    intro st f own
    obtain ⟨fuel1, r1, h1⟩ := resolveDependency_succeeds env v
      (fun g hg => hbuild g (hg ▸ List.mem_cons_self _ _)) st f own .after
    obtain ⟨rv1, st1⟩ := r1
    obtain ⟨fuel2, r2, h2⟩ := ih
      (fun g hg => hbuild g (List.mem_cons_of_mem _ hg)) st1 f own
    obtain ⟨rvs2, st2⟩ := r2
    refine ⟨max fuel1 fuel2 + 1, (rv1 :: rvs2, st2), ?_⟩
    have h1' := (buildCluster_mono env fuel1).2.2.2.2.2 st f own v .after
      (rv1, st1) h1 (max fuel1 fuel2) (le_max_left _ _)
    have h2' := (buildCluster_mono env fuel2).2.2.2.2.1 st1 f own rest
      (rvs2, st2) h2 (max fuel1 fuel2) (le_max_right _ _)
    show (match resolveDependency env (max fuel1 fuel2) st f own v .after with
      | none => none
      | some (rv, stx) =>
        match resolveDepList env (max fuel1 fuel2) stx f own rest with
        | none => none
        | some (rvs, sty) => some (rv :: rvs, sty)) = _
    rw [h1']
    show (match resolveDepList env (max fuel1 fuel2) st1 f own rest with
      | none => none
      | some (rvs, sty) => some (rv1 :: rvs, sty)) = _
    rw [h2']

/-- `resolveProp` succeeds with some fuel provided every fixture the value
references builds with some fuel from every state. -/
theorem resolveProp_succeeds (env : Env) (v : RVal)
    (hbuild : ∀ g, g ∈ entryFixtureRefs v → ∀ st own, ∃ fuel r,
      buildFixtureInstance env fuel st g own = some r) :
    ∀ st f iid, ∃ fuel r, resolveProp env fuel st f iid v = some r := by
  intro st f iid
  cases v with
  | fx g =>
    obtain ⟨fuel, r, hr⟩ := resolveDependency_succeeds env (.fx g)
      (fun g2 hg2 => by
        injection hg2 with hg3
        exact hbuild g2 (by simp [entryFixtureRefs, hg3]))
      st f (some iid) .before
    exact ⟨fuel + 1, r, hr⟩
  | arr vs =>
    by_cases hall : vs.all RVal.isFixture = true
    · obtain ⟨fuel, r, hr⟩ := resolveDepList_succeeds env vs
        (fun g hg => hbuild g (mem_entryFixtureRefs_arr hall hg)) st f (some iid)
      obtain ⟨rvs, st1⟩ := r
      refine ⟨fuel + 1, (RVal.arr rvs, st1), ?_⟩
      show (if vs.all RVal.isFixture then
          match resolveDepList env fuel st f (some iid) vs with
          | none => none
          | some (rvs, st1) => some (RVal.arr rvs, st1)
        else some (RVal.arr vs, st)) = _
      rw [if_pos hall, hr]
    · refine ⟨1, (RVal.arr vs, st), ?_⟩
      show (if vs.all RVal.isFixture then
          match resolveDepList env 0 st f (some iid) vs with
          | none => none
          | some (rvs, st1) => some (RVal.arr rvs, st1)
        else some (RVal.arr vs, st)) = _
      rw [if_neg hall]
  | fn fnid => exact ⟨1, (env.funcs fnid, st), rfl⟩
  | thunkRef rr => exact ⟨1, (.ref rr, st), rfl⟩
  | prim n => exact ⟨1, (.prim n, st), rfl⟩
  | nullV => exact ⟨1, (.nullV, st), rfl⟩
  | undefV => exact ⟨1, (.undefV, st), rfl⟩
  | ref i => exact ⟨1, (.ref i, st), rfl⟩

/-- `initEntries` succeeds with some fuel provided every fixture referenced
by the entries builds with some fuel from every state. -/
theorem initEntries_succeeds (env : Env) (es : List (String × RVal))
    (hbuild : ∀ kv, kv ∈ es → ∀ g, g ∈ entryFixtureRefs kv.2 → ∀ st own,
      ∃ fuel r, buildFixtureInstance env fuel st g own = some r) :
    ∀ st f iid, ∃ fuel st', initEntries env fuel st f iid es = some st' := by
  induction es with
  | nil => exact fun st f iid => ⟨1, st, rfl⟩
  | cons kv rest ih =>
    intro st f iid
    obtain ⟨key, value⟩ := kv
    obtain ⟨fuel1, r1, h1⟩ := resolveProp_succeeds env value
      (fun g hg => hbuild (key, value) (List.mem_cons_self _ _) g hg) st f iid
    obtain ⟨rv, st1⟩ := r1
    obtain ⟨fuel2, st2, h2⟩ := ih
      (fun kv2 hkv2 g hg => hbuild kv2 (List.mem_cons_of_mem _ hkv2) g hg)
      (heapModify st1 iid fun inst => assignProp inst key (.data rv)) f iid
    refine ⟨max fuel1 fuel2 + 1, st2, ?_⟩
    have h1' := (buildCluster_mono env fuel1).2.2.2.1 st f iid value
      (rv, st1) h1 (max fuel1 fuel2) (le_max_left _ _)
    have h2' := (buildCluster_mono env fuel2).2.2.1
      (heapModify st1 iid fun inst => assignProp inst key (.data rv)) f iid rest
      st2 h2 (max fuel1 fuel2) (le_max_right _ _)
    show (match resolveProp env (max fuel1 fuel2) st f iid value with
      | none => none
      | some (rv, st1) =>
        initEntries env (max fuel1 fuel2)
          (heapModify st1 iid fun inst => assignProp inst key (.data rv))
          f iid rest) = _
    rw [h1']
    exact h2'

/-- `initFixture` succeeds with some fuel provided every fixture referenced
by the initializer entries builds with some fuel from every state. -/
theorem initFixture_succeeds (env : Env) (f : Nat) (own : Option Nat)
    (hbuild : ∀ kv, kv ∈ initEntriesOf env f own → ∀ g,
      g ∈ entryFixtureRefs kv.2 → ∀ st own2,
      ∃ fuel r, buildFixtureInstance env fuel st g own2 = some r) :
    ∀ st iid, ∃ fuel st', initFixture env fuel st f iid own = some st' := by
  intro st iid
  cases hinit : (env.fixtures f).init with
  | none =>
    refine ⟨1, st, ?_⟩
    show (match (env.fixtures f).init with
      | none => some st
      | some i =>
        match i with
        | .record es => initEntries env 0 st f iid es
        | .fn fI => initEntries env 0 st f iid (fI own)) = _
    rw [hinit]
  | some i =>
    cases i with
    | record es =>
      have hes : initEntriesOf env f own = es := by simp [initEntriesOf, hinit]
      obtain ⟨fuel, st', h⟩ := initEntries_succeeds env es
        (fun kv hkv g hg => hbuild kv (hes ▸ hkv) g hg) st f iid
      refine ⟨fuel + 1, st', ?_⟩
      show (match (env.fixtures f).init with
        | none => some st
        | some i =>
          match i with
          | .record es => initEntries env fuel st f iid es
          | .fn fI => initEntries env fuel st f iid (fI own)) = _
      rw [hinit]
      exact h
    | fn fI =>
      have hes : initEntriesOf env f own = fI own := by simp [initEntriesOf, hinit]
      obtain ⟨fuel, st', h⟩ := initEntries_succeeds env (fI own)
        (fun kv hkv g hg => hbuild kv (hes ▸ hkv) g hg) st f iid
      refine ⟨fuel + 1, st', ?_⟩
      show (match (env.fixtures f).init with
        | none => some st
        | some i =>
          match i with
          | .record es => initEntries env fuel st f iid es
          | .fn fI => initEntries env fuel st f iid (fI own)) = _
      rw [hinit]
      exact h

/-- Under a ranking that witnesses the acyclicity of the dependency
relation, `buildFixtureInstance` succeeds with some fuel from every state
and for every fixture. -/
theorem build_succeeds (env : Env) (rank : Nat → Nat)
    (hrank : ∀ f g, dependsOn env f g → rank g < rank f) :
    ∀ n f, rank f < n → ∀ st own, ∃ fuel r,
      buildFixtureInstance env fuel st f own = some r := by
  intro n
  induction n with
  | zero => omega
  | succ n ih =>
    intro f hf st own
    have hbuild : ∀ kv, kv ∈ initEntriesOf env f own → ∀ g,
        g ∈ entryFixtureRefs kv.2 → ∀ st2 own2,
        ∃ fuel r, buildFixtureInstance env fuel st2 g own2 = some r := by
      intro kv hkv g hg st2 own2
      have hdep : dependsOn env f g := ⟨own, kv, hkv, hg⟩
      have hg2 : rank g < n := by
        have := hrank f g hdep
        omega
      exact ih g hg2 st2 own2
    rcases hbor : buildOrReuseInstance env st f with ⟨i0, st1⟩
    obtain ⟨fuelI, st2, hIF⟩ := initFixture_succeeds env f own hbuild st1 i0
    refine ⟨fuelI + 1, (i0, fixturize env st2 f i0), ?_⟩
    show (match buildOrReuseInstance env st f with
      | (iid, stx) =>
        match initFixture env fuelI stx f iid own with
        | none => none
        | some sty => some (iid, fixturize env sty f iid)) = _
    rw [hbor]
    show (match initFixture env fuelI st1 f i0 own with
      | none => none
      | some sty => some (i0, fixturize env sty f i0)) = _
    rw [hIF]

/-- Under a ranking that bounds the dependency table,
`saveFixtureInstance` succeeds with some fuel for every fixture. -/
theorem save_succeeds (env : Env) (rank : Nat → Nat)
    (T : List (Nat × List Dependency))
    (hT : ∀ f d, d ∈ (mapGet T f).getD [] → ∀ g, d.fixture = some g →
      rank g < rank f) :
    ∀ n f, rank f < n → ∀ st iid, st.dependencies = T →
      ∃ fuel r, saveFixtureInstance env fuel st f iid = some r := by
  intro n
  induction n with
  | zero => omega
  | succ n ih =>
    intro f hf st iid hstT
    have hdeps : ∀ ds, (∀ d, d ∈ ds → ∀ g, d.fixture = some g → rank g < n) →
        ∀ st2, st2.dependencies = T →
        ∃ fuel r, saveDeps env fuel st2 ds = some r := by
      intro ds
      induction ds with
      | nil => exact fun _ st2 _ => ⟨1, ([], st2), rfl⟩
      | cons d rest ihds =>
        intro hds st2 hst2
        cases hfx : d.fixture with
        | some g =>
          have hg : rank g < n := hds d (List.mem_cons_self _ _) g hfx
          obtain ⟨fuel1, r1, h1⟩ := ih g hg st2 ((d.inst.call env).refId) hst2
          obtain ⟨ev1, st3⟩ := r1
          have hst3 : st3.dependencies = T := by
            rw [((saveCluster_tables env fuel1).1 st2 g _ ev1 st3 h1).1, hst2]
          obtain ⟨fuel2, r2, h2⟩ := ihds
            (fun d2 hd2 => hds d2 (List.mem_cons_of_mem _ hd2)) st3 hst3
          obtain ⟨ev2, st4⟩ := r2
          refine ⟨max fuel1 fuel2 + 1, (ev1 ++ ev2, st4), ?_⟩
          have h1' := (saveCluster_mono env fuel1).1 st2 g ((d.inst.call env).refId)
            (ev1, st3) h1 (max fuel1 fuel2) (le_max_left _ _)
          have h2' := (saveCluster_mono env fuel2).2 st3 rest
            (ev2, st4) h2 (max fuel1 fuel2) (le_max_right _ _)
          show (match d.fixture with
            | some g =>
              match saveFixtureInstance env (max fuel1 fuel2) st2 g
                  ((d.inst.call env).refId) with
              | none => none
              | some (ev1, stx) =>
                match saveDeps env (max fuel1 fuel2) stx rest with
                | none => none
                | some (ev2, sty) => some (ev1 ++ ev2, sty)
            | none =>
              match saveDeps env (max fuel1 fuel2) st2 rest with
              | none => none
              | some (ev2, sty) =>
                some (SaveEvent.emSave (d.inst.call env) :: ev2, sty)) = _
          rw [hfx]
          show (match saveFixtureInstance env (max fuel1 fuel2) st2 g
              ((d.inst.call env).refId) with
            | none => none
            | some (ev1, stx) =>
              match saveDeps env (max fuel1 fuel2) stx rest with
              | none => none
              | some (ev2, sty) => some (ev1 ++ ev2, sty)) = _
          rw [h1']
          show (match saveDeps env (max fuel1 fuel2) st3 rest with
            | none => none
            | some (ev2, sty) => some (ev1 ++ ev2, sty)) = _
          rw [h2']
        | none =>
          obtain ⟨fuel2, r2, h2⟩ := ihds
            (fun d2 hd2 => hds d2 (List.mem_cons_of_mem _ hd2)) st2 hst2
          obtain ⟨ev2, st4⟩ := r2
          refine ⟨fuel2 + 1, (SaveEvent.emSave (d.inst.call env) :: ev2, st4), ?_⟩
          show (match d.fixture with
            | some g =>
              match saveFixtureInstance env fuel2 st2 g
                  ((d.inst.call env).refId) with
              | none => none
              | some (ev1, stx) =>
                match saveDeps env fuel2 stx rest with
                | none => none
                | some (ev2, sty) => some (ev1 ++ ev2, sty)
            | none =>
              match saveDeps env fuel2 st2 rest with
              | none => none
              | some (ev2, sty) =>
                some (SaveEvent.emSave (d.inst.call env) :: ev2, sty)) = _
          rw [hfx]
          show (match saveDeps env fuel2 st2 rest with
            | none => none
            | some (ev2, sty) =>
              some (SaveEvent.emSave (d.inst.call env) :: ev2, sty)) = _
          rw [h2]
    have hofst : depsOf st f = (mapGet T f).getD [] := by
      simp [depsOf, hstT]
    have hbefore : ∀ d, d ∈ (depsOf st f).filter Dependency.isBefore →
        ∀ g, d.fixture = some g → rank g < n := by
      intro d hd g hg
      have hd' : d ∈ depsOf st f := List.mem_of_mem_filter hd
      have := hT f d (hofst ▸ hd') g hg
      omega
    have hafter : ∀ d, d ∈ (depsOf st f).filter Dependency.isAfter →
        ∀ g, d.fixture = some g → rank g < n := by
      intro d hd g hg
      have hd' : d ∈ depsOf st f := List.mem_of_mem_filter hd
      have := hT f d (hofst ▸ hd') g hg
      omega
    obtain ⟨fuelB, rB, hB⟩ :=
      hdeps ((depsOf st f).filter Dependency.isBefore) hbefore st hstT
    obtain ⟨evB, st1⟩ := rB
    have hst1T : (heapModify st1 iid fun inst =>
        (env.savedFields (env.fixtures f).Entity).foldl
          (fun i kv => assignProp i kv.1 (PropVal.data kv.2)) inst).dependencies = T := by
      rw [show (heapModify st1 iid fun inst =>
          (env.savedFields (env.fixtures f).Entity).foldl
            (fun i kv => assignProp i kv.1 (PropVal.data kv.2)) inst).dependencies =
          st1.dependencies from rfl]
      rw [((saveCluster_tables env fuelB).2 st _ evB st1 hB).1, hstT]
    obtain ⟨fuelA, rA, hA⟩ :=
      hdeps ((depsOf st f).filter Dependency.isAfter) hafter _ hst1T
    obtain ⟨evA, st3⟩ := rA
    refine ⟨max fuelB fuelA + 1,
      (evB ++ [SaveEvent.repoSave (env.fixtures f).Entity iid] ++ evA, st3), ?_⟩
    have hB' := (saveCluster_mono env fuelB).2 st _ (evB, st1) hB
      (max fuelB fuelA) (le_max_left _ _)
    have hA' := (saveCluster_mono env fuelA).2 _ _ (evA, st3) hA
      (max fuelB fuelA) (le_max_right _ _)
    show (match saveDeps env (max fuelB fuelA) st
        ((depsOf st f).filter Dependency.isBefore) with
      | none => none
      | some (evB, st1) =>
        match saveDeps env (max fuelB fuelA)
            (heapModify st1 iid fun inst =>
              (env.savedFields (env.fixtures f).Entity).foldl
                (fun i (kv : String × RVal) =>
                  assignProp i kv.1 (PropVal.data kv.2)) inst)
            ((depsOf st f).filter Dependency.isAfter) with
        | none => none
        | some (evA, st3) =>
          some (evB ++ [SaveEvent.repoSave (env.fixtures f).Entity iid] ++ evA,
            st3)) = _
    rw [hB']
    show (match saveDeps env (max fuelB fuelA)
        (heapModify st1 iid fun inst =>
          (env.savedFields (env.fixtures f).Entity).foldl
            (fun i (kv : String × RVal) =>
              assignProp i kv.1 (PropVal.data kv.2)) inst)
        ((depsOf st f).filter Dependency.isAfter) with
      | none => none
      | some (evA, st3) =>
        some (evB ++ [SaveEvent.repoSave (env.fixtures f).Entity iid] ++ evA,
          st3)) = _
    rw [hA']

/-- C4: the recursive build-and-save walk performs no cycle detection, but
under the precondition that the fixture dependency relation is acyclic
(witnessed by a ranking `rank` that strictly decreases along dependencies)
both `buildFixtureInstance` and `saveFixtureInstance` terminate for every
fixture: some finite fuel makes them return a result instead of running
out. -/
theorem C4_acyclic_terminates (env : Env) (rank : Nat → Nat)
    (hrank : ∀ f g, dependsOn env f g → rank g < rank f)
    (st : ProviderState)
    (hst : ∀ f d, d ∈ depsOf st f → ∀ g, d.fixture = some g → rank g < rank f)
    (f : Nat) (own : Option Nat) (iid : Nat) :
    (∃ fuel r, buildFixtureInstance env fuel st f own = some r) ∧
    (∃ fuel r, saveFixtureInstance env fuel st f iid = some r) ∧
    (∀ fuel i1 st', buildFixtureInstance env fuel st f own = some (i1, st') →
      ∃ fuel2 r2, saveFixtureInstance env fuel2 st' f iid = some r2) := by
  refine ⟨build_succeeds env rank hrank (rank f + 1) f (by omega) st own, ?_, ?_⟩
  · exact save_succeeds env rank st.dependencies hst (rank f + 1) f (by omega)
      st iid rfl
  · intro fuel i1 st' hb
    have hext := (buildCluster_extends env fuel).1 st f own i1 st' hb
    have hst' : ∀ f2 d, d ∈ depsOf st' f2 → ∀ g, d.fixture = some g →
        rank g < rank f2 := by
      intro f2 d hd g hg
      rcases hext.2 f2 d hd with hold | hnew
      · exact hst f2 d hold g hg
      · exact hrank f2 g (hnew.2 g hg)
    exact save_succeeds env rank st'.dependencies hst' (rank f + 1) f (by omega)
      st' iid rfl

/-- Witness for C4: the acyclic `chainEnv` (fixture `0` references fixture
`1`) builds from the empty state with some fuel. -/
theorem C4_witness :
    ∃ fuel r, buildFixtureInstance chainEnv fuel ProviderState.empty 0 none =
      some r := by
  have hrank : ∀ f g, dependsOn chainEnv f g → chainRank g < chainRank f := by
    rintro f g ⟨own, kv, hkv, hg⟩
    by_cases hf : f = 0
    · subst hf
      have hkv' : kv = ("org", RVal.fx 1) := by
        simpa [initEntriesOf, chainEnv] using hkv
      subst hkv'
      have hg' : g = 1 := by simpa [entryFixtureRefs] using hg
      subst hg'
      simp [chainRank]
    · have hnil : initEntriesOf chainEnv f own = [] := by
        simp [initEntriesOf, chainEnv, hf]
      rw [hnil] at hkv
      cases hkv
  have hst : ∀ f d, d ∈ depsOf ProviderState.empty f → ∀ g,
      d.fixture = some g → chainRank g < chainRank f := by
    intro f d hd
    simp [depsOf, ProviderState.empty, mapGet] at hd
  exact (C4_acyclic_terminates chainEnv chainRank hrank .empty hst 0 none 0).1

end Fixtures
